import Mathlib

/-!
Keyword report plugin, `server/plugin.go`.

A shallow embedding of the message handler of the report plugin and the
properties of its guards, text extraction, term scan and fan-out.

Conventions of the embedding.

* A Go `string` is a Lean `String`. Go strings are byte sequences; the
  embedding covers the strings that are valid UTF-8, which is what a Lean
  `String` holds. On those, splitting at a comma, trimming white space,
  lower-casing rune by rune and searching a substring act on the sequence of
  runes, so the library functions are written on `String.data`.
* A Go pointer that may be nil is an `Option`; a slice of pointers is a list
  of options. A nil slice and an absent map entry are `none`.
* A value of type `interface{}` is `none` for the nil interface and otherwise
  a value of a type listing the dynamic types that are told apart.
* Calls to the host platform are recorded in order in a list of `Call`s; the
  answers of the platform are the fields of `API`.
* A runtime panic (failed type assertion, nil dereference) is `none` for a
  function returning a value and `panicked := true` for the handler.
-/

namespace Report

/-! ## The Go library functions used by the plugin -/

namespace unicode

/-- The white space runes of Go's `unicode.IsSpace`: the Latin-1 spaces
`'\t'`, `'\n'`, `'\v'`, `'\f'`, `'\r'`, `' '`, U+0085, U+00A0, and the runes with
the White_Space property outside Latin-1. -/
def IsSpace (r : Char) : Bool :=
  let n := r.toNat
  (9 ≤ n && n ≤ 13) || n == 0x20 || n == 0x85 || n == 0xA0 || n == 0x1680 ||
  (0x2000 ≤ n && n ≤ 0x200A) || n == 0x2028 || n == 0x2029 || n == 0x202F ||
  n == 0x205F || n == 0x3000

end unicode

namespace strings

/-- Go `strings.Split(s, sep)` for a separator of one rune: the pieces of `s`
between the occurrences of `sep`, one more than there are occurrences. -/
def Split (s : String) (sep : Char) : List String :=
  (s.data.splitOn sep).map String.mk

/-- Go `strings.TrimSpace`: `s` without its leading and trailing white space. -/
def TrimSpace (s : String) : String :=
  ⟨(s.data.dropWhile unicode.IsSpace).rdropWhile unicode.IsSpace⟩

/-- Go `strings.ToLower`: every rune mapped by `unicode.ToLower`. The case
table of the Unicode library is the parameter `lower`. -/
def ToLower (lower : Char → Char) (s : String) : String :=
  ⟨s.data.map lower⟩

/-- Position of the first occurrence of `sub` in `s`, if there is one. -/
def indexAux (sub : List Char) : List Char → Option Nat
  | [] => if sub = [] then some 0 else none
  | c :: cs =>
    if sub.isPrefixOf (c :: cs) then some 0
    else (indexAux sub cs).map (· + 1)

/-- Go `strings.Index(s, substr)`: the index of the first occurrence of
`substr` in `s`, or `-1` when there is none. The index is counted in runes
here and in bytes in Go; the plugin only tests it against `0`. -/
def Index (s substr : String) : Int :=
  match indexAux substr.data s.data with
  | some i => (i : Int)
  | none => -1

/-- Go `strings.Join(elems, sep)`. -/
def Join : List String → String → String
  | [], _ => ""
  | [s], _ => s
  | s :: t :: rest, sep => s ++ sep ++ Join (t :: rest) sep

end strings

/-- Go `len(s)` of a string: its number of bytes. -/
def len (s : String) : Nat := s.utf8ByteSize

/-! ## The data model of the platform, as far as the plugin reads it -/

/-- A non-nil value held in an `interface{}` field of an attachment: a string,
an integer or a boolean. Values of other dynamic types (floating point
numbers, maps, slices) are not modelled. -/
inductive Dyn where
  | str (s : String)
  | int (i : Int)
  | bool (b : Bool)
  deriving DecidableEq

/-- The rendering `fmt.Sprintf("%v", v)` of an `interface{}` value. -/
def fmtV : Option Dyn → String
  | none => "<nil>"
  | some (.str s) => s
  | some (.int i) => toString i
  | some (.bool true) => "true"
  | some (.bool false) => "false"

/-- Go `model.PostActionOptions`. -/
structure PostActionOptions where
  Text : String := ""
  Value : String := ""
  deriving DecidableEq

/-- Go `model.PostAction`. -/
structure PostAction where
  Name : String := ""
  DefaultOption : String := ""
  Options : List (Option PostActionOptions) := []
  deriving DecidableEq

/-- Go `model.SlackAttachmentField`. -/
structure SlackAttachmentField where
  Title : String := ""
  Value : Option Dyn := none
  deriving DecidableEq

/-- Go `model.SlackAttachment`. -/
structure SlackAttachment where
  Fallback : String := ""
  Pretext : String := ""
  AuthorName : String := ""
  Title : String := ""
  Text : String := ""
  Footer : String := ""
  Fields : List (Option SlackAttachmentField) := []
  Actions : List (Option PostAction) := []
  deriving DecidableEq

/-- Go `model.FileInfo`. -/
structure FileInfo where
  Name : String := ""
  deriving DecidableEq

/-- Go `model.PostMetadata`; `Files` is `none` for a nil slice. -/
structure PostMetadata where
  Files : Option (List (Option FileInfo)) := none
  deriving DecidableEq

/-- A non-nil value stored under a key of `post.Props`: a value of dynamic type
`[]*model.SlackAttachment`, or a value of another dynamic type, named by
`goType` (for instance `[]interface {}`, the shape of decoded JSON). -/
inductive PropValue where
  | slackAttachments (l : List (Option SlackAttachment))
  | other (goType : String)
  deriving DecidableEq

/-- Go `model.Post`. `Type_` is the field `Type`, and `attachments` is
`post.GetProp("attachments")`. -/
structure Post where
  Id : String := ""
  UserId : String := ""
  ChannelId : String := ""
  Message : String := ""
  Type_ : String := ""
  Metadata : Option PostMetadata := none
  attachments : Option PropValue := none
  deriving DecidableEq

/-- Go `model.Channel`. -/
structure Channel where
  Id : String := ""
  TeamId : String := ""
  DisplayName : String := ""
  deriving DecidableEq

/-- Go `model.Team`. -/
structure Team where
  Id : String := ""
  Name : String := ""
  DisplayName : String := ""
  deriving DecidableEq

/-- Go `model.User`. -/
structure User where
  Id : String := ""
  deriving DecidableEq

/-- Modelled from the spec: the declaration of the `configuration` type is not
part of the source file. It holds the four settings Terms, Users, Channels and
Teams, each a comma-separated string. -/
structure configuration where
  Terms : String := ""
  Users : String := ""
  Channels : String := ""
  Teams : String := ""
  deriving DecidableEq

/-- The answers of the host platform. A lookup that fails with an error is
`none`. `GetDirectChannel` may also succeed with a nil channel, `some none`.
`SiteURL` is `GetConfig().ServiceSettings.SiteURL`, a pointer. -/
structure API where
  GetChannel : String → Option Channel
  GetTeam : String → Option Team
  GetUserByUsername : String → Option User
  GetDirectChannel : String → String → Option (Option Channel)
  CreatePost : Post → Option Post
  SiteURL : Option String

/-- The plugin: its platform handle, active configuration and bot account.
The configuration is a loaded one: the pointer `p.configuration` is not nil. -/
structure Plugin where
  API : API
  configuration : configuration
  BotUserID : String

/-- A call made to the host platform. -/
inductive Call where
  | LogDebug (msg : String)
  | GetChannel (channelId : String)
  | GetTeam (teamId : String)
  | GetConfig
  | GetUserByUsername (name : String)
  | GetDirectChannel (userId1 userId2 : String)
  | CreatePost (post : Post)
  deriving DecidableEq

/-- What one invocation of the handler did: the platform calls in order, and
whether it ended in a runtime panic instead of returning. -/
structure Run where
  calls : List Call
  panicked : Bool
  deriving DecidableEq

/-! ## The plugin -/

/-- The post type that marks the plugin's own posts. -/
def REPORT_POST_TYPE : String := "custom_report"

/-- The loop of `splitStringList`: trims every piece and keeps the non-empty
ones, in order. -/
def splitStringList.loop : List String → List String
  | [] => []
  | v :: rest =>
    let newV := strings.TrimSpace v
    if len newV > 0 then newV :: splitStringList.loop rest
    else splitStringList.loop rest

/-- The function `splitStringList`. -/
def splitStringList (received : String) : List String :=
  let splitted := strings.Split received ','
  splitStringList.loop splitted

/-- The loop over `post.Metadata.Files`: the name of every file. A nil entry
is dereferenced without a check, which is a panic. -/
def fileNames : List (Option FileInfo) → Option (List String)
  | [] => some []
  | none :: _ => none
  | some file :: rest => (fileNames rest).map (file.Name :: ·)

/-- The loop over `action.Options`. -/
def optionStrings : List (Option PostActionOptions) → List String
  | [] => []
  | none :: rest => optionStrings rest
  | some option :: rest => option.Text :: option.Value :: optionStrings rest

/-- The loop over `attachment.Actions`. -/
def actionStrings : List (Option PostAction) → List String
  | [] => []
  | none :: rest => actionStrings rest
  | some action :: rest =>
    action.Name :: action.DefaultOption ::
      (optionStrings action.Options ++ actionStrings rest)

/-- The loop over `attachment.Fields`. -/
def fieldStrings : List (Option SlackAttachmentField) → List String
  | [] => []
  | none :: rest => fieldStrings rest
  | some field :: rest => field.Title :: fmtV field.Value :: fieldStrings rest

/-- The loop over the attachments. -/
def attachmentStrings : List (Option SlackAttachment) → List String
  | [] => []
  | none :: rest => attachmentStrings rest
  | some attachment :: rest =>
    [attachment.Fallback, attachment.Pretext, attachment.AuthorName,
      attachment.Title, attachment.Text, attachment.Footer] ++
    fieldStrings attachment.Fields ++ actionStrings attachment.Actions ++
    attachmentStrings rest

/-- The function `extractTextFromPost`. It is `none` when the Go function
panics: on a nil file entry, and on an `attachments` property that is not nil
and not of dynamic type `[]*model.SlackAttachment` (the type assertion has no
second result). -/
def extractTextFromPost (post : Post) : Option String :=
  let allStrings := [post.Message]
  let files : Option (List String) :=
    match post.Metadata with
    | none => some []
    | some metadata =>
      match metadata.Files with
      | none => some []
      | some fs => fileNames fs
  match files with
  | none => none
  | some names =>
    let allStrings := allStrings ++ names
    match post.attachments with
    | none => some (strings.Join allStrings "\n")
    | some (.other _) => none
    | some (.slackAttachments attachments) =>
      some (strings.Join (allStrings ++ attachmentStrings attachments) "\n")

/-- The function `getPermalink`; its call of `GetConfig` is recorded by
`report`. -/
def getPermalink (p : Plugin) (post : Post) (team : Team) : String :=
  match p.API.SiteURL with
  | none => ""
  | some siteURL => siteURL ++ "/" ++ team.Name ++ "/pl/" ++ post.Id

/-- The first loop of `report`, over the recipient channels: sets the channel
of `postToSend` and submits a clone. Returns the calls and `postToSend` as the
loop leaves it. -/
def report.sendToChannels : List String → Post → List Call × Post
  | [], postToSend => ([], postToSend)
  | channel :: rest, postToSend =>
    let postToSend := { postToSend with ChannelId := channel }
    let r := report.sendToChannels rest postToSend
    (Call.CreatePost postToSend :: r.1, r.2)

/-- The second loop of `report`, over the recipient user names. The result of
`CreatePost` is discarded. -/
def report.sendToUsers (p : Plugin) : List String → Post → List Call
  | [], _ => []
  | userName :: rest, postToSend =>
    match p.API.GetUserByUsername userName with
    | none => Call.GetUserByUsername userName :: report.sendToUsers p rest postToSend
    | some user =>
      match p.API.GetDirectChannel user.Id p.BotUserID with
      | some (some channel) =>
        let postToSend := { postToSend with ChannelId := channel.Id }
        Call.GetUserByUsername userName ::
          Call.GetDirectChannel user.Id p.BotUserID ::
          Call.CreatePost postToSend :: report.sendToUsers p rest postToSend
      | _ =>
        Call.GetUserByUsername userName ::
          Call.GetDirectChannel user.Id p.BotUserID ::
          report.sendToUsers p rest postToSend

/-- The text of the notification, the `fmt.Sprintf` of `report`. -/
def reportMessage (term channelName teamName permalink : String) : String :=
  "@all Term `" ++ term ++ "` has been used in channel `" ++ channelName ++
    "` in team `" ++ teamName ++ "`. Link: " ++ permalink

/-- The function `report`: the calls it makes, in order. -/
def report (p : Plugin) (post : Post) (channel : Channel) (term : String) :
    List Call :=
  let users := splitStringList p.configuration.Users
  let channels := splitStringList p.configuration.Channels
  match p.API.GetTeam channel.TeamId with
  | none => [Call.GetTeam channel.TeamId]
  | some team =>
    let postToSend : Post :=
      { UserId := p.BotUserID
        Message := reportMessage term channel.DisplayName team.DisplayName
          (getPermalink p post team)
        Type_ := REPORT_POST_TYPE }
    let r := report.sendToChannels channels postToSend
    Call.GetTeam channel.TeamId :: Call.GetConfig ::
      (r.1 ++ report.sendToUsers p users r.2)

/-- The loop of `MessageHasBeenPosted` that looks for the team of the channel
among the permitted teams. -/
def teamFound (teamId : String) : List String → Bool
  | [] => false
  | t :: rest => if teamId = t then true else teamFound teamId rest

/-- The term loop of `MessageHasBeenPosted`: reports the first term found in
`allText` and returns. -/
def scanTerms (lower : Char → Char) (p : Plugin) (post : Post)
    (channel : Channel) (allText : String) : List String → List Call
  | [] => [Call.LogDebug "No term found"]
  | term :: rest =>
    if strings.Index allText (strings.ToLower lower term) ≥ 0 then
      Call.LogDebug "Term found, reporting" :: report p post channel term
    else scanTerms lower p post channel allText rest

/-- The hook `MessageHasBeenPosted`. -/
def MessageHasBeenPosted (lower : Char → Char) (p : Plugin) (post : Post) :
    Run :=
  if post.Type_ = REPORT_POST_TYPE then
    ⟨[Call.LogDebug "Not doing anything"], false⟩
  else if len p.configuration.Terms = 0 then
    ⟨[Call.LogDebug "Not doing anything"], false⟩
  else if len p.configuration.Users = 0 ∧ len p.configuration.Channels = 0 then
    ⟨[Call.LogDebug "Not doing anything"], false⟩
  else if len p.configuration.Teams = 0 then
    ⟨[Call.LogDebug "Not doing anything"], false⟩
  else
    match p.API.GetChannel post.ChannelId with
    | none =>
      ⟨[Call.GetChannel post.ChannelId, Call.LogDebug "Error getting channel"],
        false⟩
    | some channel =>
      let teamIds := splitStringList p.configuration.Teams
      if teamFound channel.TeamId teamIds = false then
        ⟨[Call.GetChannel post.ChannelId, Call.LogDebug "Channel not in team"],
          false⟩
      else
        match extractTextFromPost post with
        | none => ⟨[Call.GetChannel post.ChannelId], true⟩
        | some text =>
          let allText := strings.ToLower lower text
          ⟨Call.GetChannel post.ChannelId ::
              scanTerms lower p post channel allText
                (splitStringList p.configuration.Terms),
            false⟩

/-- The posts submitted with `CreatePost` among a list of calls, in order. -/
def createdPosts : List Call → List Post
  | [] => []
  | Call.CreatePost post :: rest => post :: createdPosts rest
  | _ :: rest => createdPosts rest

/-- Whether a call fetches a channel, team, user or direct channel. -/
def Call.isLookup : Call → Bool
  | Call.GetChannel _ => true
  | Call.GetTeam _ => true
  | Call.GetUserByUsername _ => true
  | Call.GetDirectChannel _ _ => true
  | _ => false


/-! ## Definitions used to state the properties -/

/-- The direct channel a notification for the recipient `userName` goes to:
the channel of the direct-channel lookup between the looked-up user and the
bot, when the user lookup succeeds and the direct-channel lookup succeeds
with a channel that is not nil. -/
def directChannelFor (p : Plugin) (userName : String) : Option Channel :=
  match p.API.GetUserByUsername userName with
  | none => none
  | some user =>
    match p.API.GetDirectChannel user.Id p.BotUserID with
    | some (some channel) => some channel
    | _ => none


/-! ## A concrete platform and configuration, used to instantiate the theorems -/

/-- A platform with one channel `ch1` in team `t1`, one user `alice`, and a
site URL. -/
def exampleAPI : API where
  GetChannel := fun id =>
    if id = "ch1" then some { Id := "ch1", TeamId := "t1", DisplayName := "Town" }
    else none
  GetTeam := fun id =>
    if id = "t1" then some { Id := "t1", Name := "eng", DisplayName := "Eng" }
    else none
  GetUserByUsername := fun n => if n = "alice" then some { Id := "u1" } else none
  GetDirectChannel := fun a b => some (some { Id := a ++ "__" ++ b })
  CreatePost := fun q => some q
  SiteURL := some "https://chat.example.com"

/-- A plugin on `exampleAPI` watching team `t1` for the terms beta and Alpha. -/
def examplePlugin : Plugin where
  API := exampleAPI
  configuration :=
    { Terms := "beta, Alpha", Users := "bob,alice", Channels := "C1, C2",
      Teams := " t1 ," }
  BotUserID := "bot"

/-- The channel `ch1` of `exampleAPI`. -/
def exampleChannel : Channel :=
  { Id := "ch1", TeamId := "t1", DisplayName := "Town" }

/-- The team `t1` of `exampleAPI`. -/
def exampleTeam : Team :=
  { Id := "t1", Name := "eng", DisplayName := "Eng" }

/-- A post in `ch1` that mentions both terms, Alpha first. -/
def examplePost : Post :=
  { Id := "abc123", ChannelId := "ch1", Message := "alpha then BETA" }


/-! ## The extracted text as the specification words it -/

/-- The file entries of a post: none when the metadata or the file list is
nil. -/
def Post.fileEntries (post : Post) : List (Option FileInfo) :=
  match post.Metadata with
  | none => []
  | some metadata => metadata.Files.getD []

/-- The attachment entries of a post whose `attachments` property holds a list
of attachment blocks; none when the property is absent. -/
def Post.attachmentEntries (post : Post) : List (Option SlackAttachment) :=
  match post.attachments with
  | some (.slackAttachments l) => l
  | _ => []

/-- The ordered sequence of strings the specification lists: the message
body; the name of each attached file; then for each attachment block its
fallback, pretext, author name, title, text and footer, followed by the title
and rendered value of each of its fields, followed by, for each of its
actions, the name and default option and then the text and value of each of
its options. Entries that are nil are no blocks, fields, actions or options. -/
def specTextSequence (post : Post) : List String :=
  [post.Message] ++
  post.fileEntries.reduceOption.map (fun file => file.Name) ++
  post.attachmentEntries.reduceOption.flatMap (fun a =>
    [a.Fallback, a.Pretext, a.AuthorName, a.Title, a.Text, a.Footer] ++
    a.Fields.reduceOption.flatMap (fun f => [f.Title, fmtV f.Value]) ++
    a.Actions.reduceOption.flatMap (fun action =>
      [action.Name, action.DefaultOption] ++
      action.Options.reduceOption.flatMap (fun o => [o.Text, o.Value])))

/-- An action without the nil entries of its option list. -/
def PostAction.withoutNilEntries (a : PostAction) : PostAction :=
  { a with Options := a.Options.filter Option.isSome }

/-- An attachment without the nil entries of its field and action lists and
of the option lists of its actions. -/
def SlackAttachment.withoutNilEntries (a : SlackAttachment) : SlackAttachment :=
  { a with
    Fields := a.Fields.filter Option.isSome
    Actions := (a.Actions.filter Option.isSome).map
      (Option.map PostAction.withoutNilEntries) }

/-- A post without the nil attachment, field, action and option entries of
its attachment list. -/
def Post.withoutNilEntries (post : Post) : Post :=
  match post.attachments with
  | some (.slackAttachments l) =>
    { post with
      attachments := some (.slackAttachments
        ((l.filter Option.isSome).map
          (Option.map SlackAttachment.withoutNilEntries))) }
  | _ => post


/-- A post with an empty body and one attachment block with title `T` and one
field of value 42, among nil entries. -/
def exampleAttachmentPost : Post :=
  { Id := "p1", ChannelId := "ch1", Message := "",
    attachments := some (.slackAttachments
      [none,
       some { Title := "T",
              Fields := [none, some { Title := "n", Value := some (.int 42) }],
              Actions := [some { Name := "go", Options := [none] }, none] }]) }

/-! ## Definitions used to state the later properties -/

/-- The term a text triggers on: the lowest-indexed term of `terms` whose
lower-casing occurs in the lower-cased text, if there is one. -/
def matchedTerm (lower : Char → Char) (terms : List String) (text : String) :
    Option String :=
  terms.find? (fun t =>
    decide ((strings.ToLower lower t).data <:+: (strings.ToLower lower text).data))

/-- A configuration saved back in normal form: every setting replaced by the
comma-join of its list. -/
def configuration.reencode (c : configuration) : configuration :=
  { Terms := strings.Join (splitStringList c.Terms) ","
    Users := strings.Join (splitStringList c.Users) ","
    Channels := strings.Join (splitStringList c.Channels) ","
    Teams := strings.Join (splitStringList c.Teams) "," }

/-- The example post with its `attachments` property in the shape of decoded
JSON, a value of dynamic type `[]interface {}`. -/
def exampleJSONPost : Post :=
  { examplePost with attachments := some (.other "[]interface \x7b\x7d") }

/-- A second post with the ID and channel of `examplePost` and another content,
which also mentions the term beta first. -/
def examplePost2 : Post :=
  { Id := "abc123", ChannelId := "ch1", Message := "secret Beta plan",
    Metadata := some { Files := some [some { Name := "budget.xls" }] } }

/-- A post with an empty body whose one attachment, with title `T` and one
field of value 42, arrives in the shape of decoded JSON: the `attachments`
property is a value of dynamic type `[]interface {}`. -/
def exampleJSONAttachmentPost : Post :=
  { Id := "p2", ChannelId := "ch1", Message := "",
    attachments := some (.other "[]interface \x7b\x7d") }

/-- A post with a body and a file list whose only entry is nil. -/
def exampleNilFilePost : Post :=
  { Id := "p3", ChannelId := "ch1", Message := "hello",
    Metadata := some { Files := some [none] } }

/-! ## Facts about the library functions -/

theorem len_eq_zero_iff (s : String) : len s = 0 ↔ s = "" := by
  obtain ⟨l⟩ := s
  cases l with
  | nil => simp [len, String.utf8ByteSize, String.utf8ByteSize.go]
  | cons c cs =>
    have hc := Char.utf8Size_pos c
    simp only [len, String.utf8ByteSize, String.utf8ByteSize.go]
    constructor
    · intro h; omega
    · intro h; exact absurd (congrArg String.data h) (by simp)

theorem indexAux_isSome_iff (sub l : List Char) :
    (strings.indexAux sub l).isSome = true ↔ sub <:+: l := by
  induction l with
  | nil =>
    by_cases h : sub = [] <;> simp [strings.indexAux, h]
  | cons c cs ih =>
    rw [List.infix_cons_iff]
    by_cases h : sub.isPrefixOf (c :: cs) = true
    · simp only [strings.indexAux, h, if_true, Option.isSome_some, true_iff]
      exact Or.inl (List.isPrefixOf_iff_prefix.mp h)
    · have h' : ¬ sub <+: c :: cs := fun hp => h (List.isPrefixOf_iff_prefix.mpr hp)
      simp only [strings.indexAux, h, Bool.false_eq_true, if_false, Option.isSome_map']
      rw [ih]
      simp [h']

theorem Index_nonneg_iff (s substr : String) :
    strings.Index s substr ≥ 0 ↔ substr.data <:+: s.data := by
  rw [← indexAux_isSome_iff]
  unfold strings.Index
  cases strings.indexAux substr.data s.data with
  | none => simp
  | some i => simp

theorem teamFound_iff (teamId : String) (teamIds : List String) :
    teamFound teamId teamIds = true ↔ teamId ∈ teamIds := by
  induction teamIds with
  | nil => simp [teamFound]
  | cons t rest ih =>
    by_cases h : teamId = t
    · simp [teamFound, h]
    · simp [teamFound, h, ih]


/-! ## Facts about the calls of `report` -/

@[simp]
theorem createdPosts_nil : createdPosts [] = [] := rfl

@[simp]
theorem createdPosts_cons_CreatePost (q : Post) (l : List Call) :
    createdPosts (Call.CreatePost q :: l) = q :: createdPosts l := rfl

@[simp]
theorem createdPosts_cons_LogDebug (m : String) (l : List Call) :
    createdPosts (Call.LogDebug m :: l) = createdPosts l := rfl

@[simp]
theorem createdPosts_cons_GetChannel (c : String) (l : List Call) :
    createdPosts (Call.GetChannel c :: l) = createdPosts l := rfl

@[simp]
theorem createdPosts_cons_GetTeam (c : String) (l : List Call) :
    createdPosts (Call.GetTeam c :: l) = createdPosts l := rfl

@[simp]
theorem createdPosts_cons_GetConfig (l : List Call) :
    createdPosts (Call.GetConfig :: l) = createdPosts l := rfl

@[simp]
theorem createdPosts_cons_GetUserByUsername (c : String) (l : List Call) :
    createdPosts (Call.GetUserByUsername c :: l) = createdPosts l := rfl

@[simp]
theorem createdPosts_cons_GetDirectChannel (a b : String) (l : List Call) :
    createdPosts (Call.GetDirectChannel a b :: l) = createdPosts l := rfl

theorem createdPosts_append (l₁ l₂ : List Call) :
    createdPosts (l₁ ++ l₂) = createdPosts l₁ ++ createdPosts l₂ := by
  induction l₁ with
  | nil => rfl
  | cons c l ih => cases c <;> simp [ih]

theorem mem_createdPosts_iff (q : Post) (l : List Call) :
    q ∈ createdPosts l ↔ Call.CreatePost q ∈ l := by
  induction l with
  | nil => simp
  | cons c l ih => cases c <;> simp [ih]

theorem sendToChannels_posts (channels : List String) (postToSend : Post) :
    createdPosts (report.sendToChannels channels postToSend).1 =
      channels.map (fun c => { postToSend with ChannelId := c }) := by
  induction channels generalizing postToSend with
  | nil => rfl
  | cons c rest ih =>
    simp only [report.sendToChannels, createdPosts_cons_CreatePost, List.map_cons, ih]

theorem sendToChannels_state (channels : List String) (postToSend : Post)
    (x : String) :
    { (report.sendToChannels channels postToSend).2 with ChannelId := x } =
      { postToSend with ChannelId := x } := by
  induction channels generalizing postToSend with
  | nil => rfl
  | cons c rest ih =>
    simp only [report.sendToChannels, ih]

theorem sendToUsers_posts (p : Plugin) (users : List String) (postToSend : Post) :
    createdPosts (report.sendToUsers p users postToSend) =
      users.filterMap (fun u => (directChannelFor p u).map
        (fun c => { postToSend with ChannelId := c.Id })) := by
  induction users generalizing postToSend with
  | nil => rfl
  | cons u rest ih =>
    rw [List.filterMap_cons]
    cases hu : p.API.GetUserByUsername u with
    | none =>
      have hdc : directChannelFor p u = none := by simp [directChannelFor, hu]
      simp [report.sendToUsers, hu, hdc, ih]
    | some user =>
      cases hd : p.API.GetDirectChannel user.Id p.BotUserID with
      | none =>
        have hdc : directChannelFor p u = none := by simp [directChannelFor, hu, hd]
        simp [report.sendToUsers, hu, hd, hdc, ih]
      | some oc =>
        cases oc with
        | none =>
          have hdc : directChannelFor p u = none := by
            simp [directChannelFor, hu, hd]
          simp [report.sendToUsers, hu, hd, hdc, ih]
        | some channel =>
          have hdc : directChannelFor p u = some channel := by
            simp [directChannelFor, hu, hd]
          simp [report.sendToUsers, hu, hd, hdc, ih]

theorem sendToUsers_congr (p : Plugin) (users : List String) (a b : Post)
    (h : ∀ x, { a with ChannelId := x } = { b with ChannelId := x }) :
    createdPosts (report.sendToUsers p users a) =
      createdPosts (report.sendToUsers p users b) := by
  rw [sendToUsers_posts, sendToUsers_posts]
  simp only [h]

/-- The posts `report` submits when the team of the channel resolves. -/
theorem report_posts (p : Plugin) (post : Post) (channel : Channel)
    (term : String) (team : Team)
    (hTeam : p.API.GetTeam channel.TeamId = some team) :
    createdPosts (report p post channel term) =
      (splitStringList p.configuration.Channels).map (fun c =>
        ({ UserId := p.BotUserID, ChannelId := c,
           Message := reportMessage term channel.DisplayName team.DisplayName
             (getPermalink p post team),
           Type_ := REPORT_POST_TYPE } : Post)) ++
      (splitStringList p.configuration.Users).filterMap (fun u =>
        (directChannelFor p u).map (fun c =>
          ({ UserId := p.BotUserID, ChannelId := c.Id,
             Message := reportMessage term channel.DisplayName team.DisplayName
               (getPermalink p post team),
             Type_ := REPORT_POST_TYPE } : Post))) := by
  unfold report
  simp only [hTeam, createdPosts_cons_GetTeam, createdPosts_cons_GetConfig,
    createdPosts_append, sendToChannels_posts]
  congr 1
  rw [sendToUsers_congr p _ _ _ (sendToChannels_state _ _), sendToUsers_posts]

theorem report_posts_of_no_team (p : Plugin) (post : Post) (channel : Channel)
    (term : String) (hTeam : p.API.GetTeam channel.TeamId = none) :
    report p post channel term = [Call.GetTeam channel.TeamId] := by
  unfold report
  simp only [hTeam]


/-! ## Facts about the term scan and the handler -/

theorem scanTerms_of_none (lower : Char → Char) (p : Plugin) (post : Post)
    (channel : Channel) (allText : String) (terms : List String)
    (h : ∀ t ∈ terms, ¬ (strings.ToLower lower t).data <:+: allText.data) :
    scanTerms lower p post channel allText terms =
      [Call.LogDebug "No term found"] := by
  induction terms with
  | nil => rfl
  | cons t rest ih =>
    have ht : ¬ strings.Index allText (strings.ToLower lower t) ≥ 0 := by
      rw [Index_nonneg_iff]; exact h t (List.mem_cons_self _ _)
    simp only [scanTerms, ht, if_false]
    exact ih (fun u hu => h u (List.mem_cons_of_mem _ hu))

theorem scanTerms_first (lower : Char → Char) (p : Plugin) (post : Post)
    (channel : Channel) (allText : String) (terms : List String)
    (h : ∃ t ∈ terms, (strings.ToLower lower t).data <:+: allText.data) :
    ∃ i, ∃ hi : i < terms.length,
      (strings.ToLower lower (terms.get ⟨i, hi⟩)).data <:+: allText.data ∧
      (∀ j (hj : j < i),
        ¬ (strings.ToLower lower (terms.get ⟨j, lt_trans hj hi⟩)).data <:+:
          allText.data) ∧
      scanTerms lower p post channel allText terms =
        Call.LogDebug "Term found, reporting" ::
          report p post channel (terms.get ⟨i, hi⟩) := by
  induction terms with
  | nil => obtain ⟨t, ht, _⟩ := h; cases ht
  | cons t rest ih =>
    by_cases ht : (strings.ToLower lower t).data <:+: allText.data
    · refine ⟨0, Nat.succ_pos _, ht, fun j hj => absurd hj (Nat.not_lt_zero j), ?_⟩
      have : strings.Index allText (strings.ToLower lower t) ≥ 0 :=
        (Index_nonneg_iff _ _).mpr ht
      simp only [scanTerms, this, if_true]
      rfl
    · have hrest : ∃ u ∈ rest, (strings.ToLower lower u).data <:+: allText.data := by
        obtain ⟨u, hu, hocc⟩ := h
        rcases List.mem_cons.mp hu with rfl | hu'
        · exact absurd hocc ht
        · exact ⟨u, hu', hocc⟩
      obtain ⟨i, hi, hocc, hmin, heq⟩ := ih hrest
      refine ⟨i + 1, Nat.succ_lt_succ hi, hocc, ?_, ?_⟩
      · intro j hj
        cases j with
        | zero => exact ht
        | succ k => exact hmin k (Nat.lt_of_succ_lt_succ hj)
      · have : ¬ strings.Index allText (strings.ToLower lower t) ≥ 0 := by
          rw [Index_nonneg_iff]; exact ht
        simp only [scanTerms, this, if_false]
        exact heq

theorem scanTerms_posts (lower : Char → Char) (p : Plugin) (post : Post)
    (channel : Channel) (allText : String) (terms : List String) (q : Post)
    (h : q ∈ createdPosts (scanTerms lower p post channel allText terms)) :
    ∃ term ∈ terms, (strings.ToLower lower term).data <:+: allText.data ∧
      q ∈ createdPosts (report p post channel term) := by
  induction terms with
  | nil => simp [scanTerms] at h
  | cons t rest ih =>
    by_cases ht : strings.Index allText (strings.ToLower lower t) ≥ 0
    · simp only [scanTerms, ht, if_true, createdPosts_cons_LogDebug] at h
      exact ⟨t, List.mem_cons_self _ _, (Index_nonneg_iff _ _).mp ht, h⟩
    · simp only [scanTerms, ht, if_false] at h
      obtain ⟨u, hu, hocc, hq⟩ := ih h
      exact ⟨u, List.mem_cons_of_mem _ hu, hocc, hq⟩

/-- The handler once all guards pass and the text is extracted. -/
theorem MessageHasBeenPosted_of_guards (lower : Char → Char) (p : Plugin)
    (post : Post) (channel : Channel) (text : String)
    (hType : post.Type_ ≠ REPORT_POST_TYPE)
    (hTerms : len p.configuration.Terms ≠ 0)
    (hRecipients :
      ¬ (len p.configuration.Users = 0 ∧ len p.configuration.Channels = 0))
    (hTeams : len p.configuration.Teams ≠ 0)
    (hChannel : p.API.GetChannel post.ChannelId = some channel)
    (hTeam : channel.TeamId ∈ splitStringList p.configuration.Teams)
    (hText : extractTextFromPost post = some text) :
    MessageHasBeenPosted lower p post =
      ⟨Call.GetChannel post.ChannelId ::
        scanTerms lower p post channel (strings.ToLower lower text)
          (splitStringList p.configuration.Terms), false⟩ := by
  have hf : teamFound channel.TeamId (splitStringList p.configuration.Teams) = true :=
    (teamFound_iff _ _).mpr hTeam
  unfold MessageHasBeenPosted
  simp only [hType, hTerms, hRecipients, hTeams, hChannel, hf, hText, if_false,
    Bool.true_eq_false]

/-- Every post the handler submits is submitted by `report` for the channel
of the post and one of the configured terms. -/
theorem MessageHasBeenPosted_posts (lower : Char → Char) (p : Plugin)
    (post q : Post)
    (h : q ∈ createdPosts (MessageHasBeenPosted lower p post).calls) :
    ∃ channel, p.API.GetChannel post.ChannelId = some channel ∧
      channel.TeamId ∈ splitStringList p.configuration.Teams ∧
      ∃ term ∈ splitStringList p.configuration.Terms,
        q ∈ createdPosts (report p post channel term) := by
  unfold MessageHasBeenPosted at h
  split_ifs at h with h1 h2 h3 h4
  · simp at h
  · simp at h
  · simp at h
  · simp at h
  · cases hc : p.API.GetChannel post.ChannelId with
    | none => simp [hc] at h
    | some channel =>
      simp only [hc] at h
      split_ifs at h with h5
      · simp at h
      · cases hx : extractTextFromPost post with
        | none => simp [hx] at h
        | some text =>
          simp only [hx, createdPosts_cons_GetChannel] at h
          obtain ⟨term, hmem, _, hq⟩ := scanTerms_posts _ _ _ _ _ _ _ h
          refine ⟨channel, rfl, ?_, term, hmem, hq⟩
          rw [← teamFound_iff]
          simpa using h5


/-- Every post `report` submits: the team of the channel resolved, and the
post is the notification for one recipient, a configured channel or the
direct channel of a configured user. -/
theorem mem_report_posts (p : Plugin) (post : Post) (channel : Channel)
    (term : String) (q : Post)
    (h : q ∈ createdPosts (report p post channel term)) :
    ∃ team, p.API.GetTeam channel.TeamId = some team ∧
      ∃ recipient : String,
        q = { UserId := p.BotUserID, ChannelId := recipient,
              Message := reportMessage term channel.DisplayName
                team.DisplayName (getPermalink p post team),
              Type_ := REPORT_POST_TYPE } ∧
        (recipient ∈ splitStringList p.configuration.Channels ∨
          ∃ u ∈ splitStringList p.configuration.Users,
            ∃ c, directChannelFor p u = some c ∧ recipient = c.Id) := by
  cases ht : p.API.GetTeam channel.TeamId with
  | none =>
    rw [report_posts_of_no_team p post channel term ht] at h
    simp at h
  | some team =>
    rw [report_posts p post channel term team ht, List.mem_append] at h
    refine ⟨team, rfl, ?_⟩
    rcases h with h | h
    · obtain ⟨c, hc, rfl⟩ := List.mem_map.mp h
      exact ⟨c, rfl, Or.inl hc⟩
    · obtain ⟨u, hu, hq⟩ := List.mem_filterMap.mp h
      cases hd : directChannelFor p u with
      | none => simp [hd] at hq
      | some c =>
        simp only [hd, Option.map_some', Option.some.injEq] at hq
        exact ⟨c.Id, hq.symm, Or.inr ⟨u, hu, c, hd, rfl⟩⟩


theorem sendToUsers_CreatePost_irrelevant (p : Plugin) (f : Post → Option Post)
    (users : List String) (postToSend : Post) :
    report.sendToUsers { p with API := { p.API with CreatePost := f } } users
        postToSend =
      report.sendToUsers p users postToSend := by
  induction users generalizing postToSend with
  | nil => rfl
  | cons u rest ih =>
    simp only [report.sendToUsers, ih]


/-! ## Facts about the text extraction -/

theorem Join_data_cons_cons (s t : String) (rest : List String) (sep : String) :
    (strings.Join (s :: t :: rest) sep).data =
      s.data ++ sep.data ++ (strings.Join (t :: rest) sep).data := by
  simp [strings.Join, String.data_append]

theorem mem_infix_Join (sep : String) (l : List String) (s : String)
    (h : s ∈ l) : s.data <:+: (strings.Join l sep).data := by
  induction l with
  | nil => cases h
  | cons a rest ih =>
    cases rest with
    | nil =>
      rw [List.mem_singleton.mp h]
      exact List.infix_refl _
    | cons b rest' =>
      rw [Join_data_cons_cons]
      rcases List.mem_cons.mp h with rfl | h'
      · rw [List.append_assoc]
        exact (List.prefix_append _ _).isInfix
      · exact (ih h').trans (List.suffix_append _ _).isInfix

theorem fileNames_of_no_nil (fs : List (Option FileInfo)) (h : none ∉ fs) :
    fileNames fs = some (fs.reduceOption.map (fun file => file.Name)) := by
  induction fs with
  | nil => rfl
  | cons f rest ih =>
    cases f with
    | none => exact absurd (List.mem_cons_self _ _) h
    | some file =>
      have hr : none ∉ rest := fun hm => h (List.mem_cons_of_mem _ hm)
      simp [fileNames, ih hr, List.reduceOption_cons_of_some]

theorem optionStrings_eq (l : List (Option PostActionOptions)) :
    optionStrings l = l.reduceOption.flatMap (fun o => [o.Text, o.Value]) := by
  induction l with
  | nil => rfl
  | cons o rest ih =>
    cases o with
    | none => simp [optionStrings, ih, List.reduceOption_cons_of_none]
    | some o => simp [optionStrings, ih, List.reduceOption_cons_of_some]

theorem actionStrings_eq (l : List (Option PostAction)) :
    actionStrings l = l.reduceOption.flatMap (fun action =>
      [action.Name, action.DefaultOption] ++
      action.Options.reduceOption.flatMap (fun o => [o.Text, o.Value])) := by
  induction l with
  | nil => rfl
  | cons a rest ih =>
    cases a with
    | none => simp [actionStrings, ih, List.reduceOption_cons_of_none]
    | some a =>
      simp [actionStrings, ih, List.reduceOption_cons_of_some, optionStrings_eq]

theorem fieldStrings_eq (l : List (Option SlackAttachmentField)) :
    fieldStrings l = l.reduceOption.flatMap (fun f => [f.Title, fmtV f.Value]) := by
  induction l with
  | nil => rfl
  | cons f rest ih =>
    cases f with
    | none => simp [fieldStrings, ih, List.reduceOption_cons_of_none]
    | some f => simp [fieldStrings, ih, List.reduceOption_cons_of_some]

theorem attachmentStrings_eq (l : List (Option SlackAttachment)) :
    attachmentStrings l = l.reduceOption.flatMap (fun a =>
      [a.Fallback, a.Pretext, a.AuthorName, a.Title, a.Text, a.Footer] ++
      a.Fields.reduceOption.flatMap (fun f => [f.Title, fmtV f.Value]) ++
      a.Actions.reduceOption.flatMap (fun action =>
        [action.Name, action.DefaultOption] ++
        action.Options.reduceOption.flatMap (fun o => [o.Text, o.Value]))) := by
  induction l with
  | nil => rfl
  | cons a rest ih =>
    cases a with
    | none => simp [attachmentStrings, ih, List.reduceOption_cons_of_none]
    | some a =>
      simp [attachmentStrings, ih, List.reduceOption_cons_of_some, fieldStrings_eq,
        actionStrings_eq]

/-- The extraction in terms of the entries of the post. -/
theorem extractTextFromPost_eq (post : Post) :
    extractTextFromPost post =
      match fileNames post.fileEntries, post.attachments with
      | none, _ => none
      | some _, some (.other _) => none
      | some names, _ =>
        some (strings.Join
          ([post.Message] ++ names ++ attachmentStrings post.attachmentEntries)
          "\n") := by
  obtain ⟨id, uid, cid, msg, ty, md, att⟩ := post
  cases md with
  | none =>
    cases att with
    | none => simp [extractTextFromPost, Post.fileEntries, Post.attachmentEntries,
        fileNames, attachmentStrings]
    | some v => cases v <;> simp [extractTextFromPost, Post.fileEntries,
        Post.attachmentEntries, fileNames]
  | some m =>
    obtain ⟨files⟩ := m
    cases files with
    | none =>
      cases att with
      | none => simp [extractTextFromPost, Post.fileEntries, Post.attachmentEntries,
          fileNames, attachmentStrings]
      | some v => cases v <;> simp [extractTextFromPost, Post.fileEntries,
          Post.attachmentEntries, fileNames]
    | some fs =>
      cases h : fileNames fs with
      | none => simp [extractTextFromPost, Post.fileEntries, h]
      | some names =>
        cases att with
        | none => simp [extractTextFromPost, Post.fileEntries,
            Post.attachmentEntries, h, attachmentStrings]
        | some v => cases v <;> simp [extractTextFromPost, Post.fileEntries,
            Post.attachmentEntries, h]


theorem optionStrings_filter (l : List (Option PostActionOptions)) :
    optionStrings (l.filter Option.isSome) = optionStrings l := by
  induction l with
  | nil => rfl
  | cons o rest ih => cases o <;> simp [optionStrings, List.filter_cons, ih]

theorem fieldStrings_filter (l : List (Option SlackAttachmentField)) :
    fieldStrings (l.filter Option.isSome) = fieldStrings l := by
  induction l with
  | nil => rfl
  | cons o rest ih => cases o <;> simp [fieldStrings, List.filter_cons, ih]

theorem actionStrings_withoutNil (l : List (Option PostAction)) :
    actionStrings ((l.filter Option.isSome).map
      (Option.map PostAction.withoutNilEntries)) = actionStrings l := by
  induction l with
  | nil => rfl
  | cons o rest ih =>
    cases o with
    | none => simpa [actionStrings, List.filter_cons] using ih
    | some a =>
      simp [actionStrings, List.filter_cons, ih, PostAction.withoutNilEntries,
        optionStrings_filter]

theorem attachmentStrings_withoutNil (l : List (Option SlackAttachment)) :
    attachmentStrings ((l.filter Option.isSome).map
      (Option.map SlackAttachment.withoutNilEntries)) = attachmentStrings l := by
  induction l with
  | nil => rfl
  | cons o rest ih =>
    cases o with
    | none => simpa [attachmentStrings, List.filter_cons] using ih
    | some a =>
      simp [attachmentStrings, List.filter_cons, ih,
        SlackAttachment.withoutNilEntries, fieldStrings_filter,
        actionStrings_withoutNil]


/-! ## Facts about splitting and trimming -/

theorem splitOn_cons_eq (sep c : Char) (cs : List Char) :
    (c :: cs).splitOn sep =
      if c = sep then [] :: cs.splitOn sep
      else List.modifyHead (List.cons c) (cs.splitOn sep) := by
  simp only [List.splitOn, List.splitOnP_cons, beq_iff_eq]

theorem splitOn_ne_nil (sep : Char) (l : List Char) : l.splitOn sep ≠ [] :=
  List.splitOnP_ne_nil _ _

/-- No piece of a split contains the separator. -/
theorem splitOn_no_sep (sep : Char) (l piece : List Char)
    (h : piece ∈ l.splitOn sep) : sep ∉ piece := by
  induction l generalizing piece with
  | nil =>
    have : piece = [] := by simpa [List.splitOn, List.splitOnP_nil] using h
    rw [this]; exact List.not_mem_nil _
  | cons c cs ih =>
    rw [splitOn_cons_eq] at h
    by_cases hc : c = sep
    · rw [if_pos hc] at h
      rcases List.mem_cons.mp h with rfl | h'
      · exact List.not_mem_nil _
      · exact ih _ h'
    · rw [if_neg hc] at h
      cases hs : cs.splitOn sep with
      | nil => exact absurd hs (splitOn_ne_nil sep cs)
      | cons first rest =>
        rw [hs] at h ih
        simp only [List.modifyHead_cons, List.mem_cons] at h
        rcases h with rfl | h'
        · intro hm
          rcases List.mem_cons.mp hm with h1 | h1
          · exact hc h1.symm
          · exact ih first (List.mem_cons_self _ _) h1
        · exact ih _ (List.mem_cons_of_mem _ h')

/-- Every rune of every piece satisfies `P` exactly when every rune of the
list is the separator or satisfies `P`. -/
theorem splitOn_forall_iff (sep : Char) (P : Char → Prop) (l : List Char) :
    (∀ piece ∈ l.splitOn sep, ∀ c ∈ piece, P c) ↔ ∀ c ∈ l, c = sep ∨ P c := by
  induction l with
  | nil => simp [List.splitOn, List.splitOnP_nil]
  | cons a cs ih =>
    rw [splitOn_cons_eq]
    by_cases hc : a = sep
    · rw [if_pos hc]
      simp only [List.forall_mem_cons, List.not_mem_nil, false_implies, implies_true,
        true_and, ih, hc, true_or]
    · rw [if_neg hc]
      cases hs : cs.splitOn sep with
      | nil => exact absurd hs (splitOn_ne_nil sep cs)
      | cons first rest =>
        rw [hs] at ih
        simp only [List.modifyHead_cons, List.forall_mem_cons] at ih ⊢
        rw [← ih]
        simp only [hc, false_or]
        tauto

theorem trim_eq_nil_iff (p : Char → Bool) (l : List Char) :
    (l.dropWhile p).rdropWhile p = [] ↔ ∀ c ∈ l, p c = true := by
  rw [List.rdropWhile_eq_nil_iff]
  constructor
  · intro h
    have hnil : l.dropWhile p = [] := by
      by_contra hne
      have h1 := List.head_dropWhile_not p l hne
      have h2 := h _ (List.head_mem hne)
      rw [h1] at h2
      cases h2
    exact List.dropWhile_eq_nil_iff.mp hnil
  · intro h c hc
    exact h c ((List.dropWhile_suffix p).subset hc)

theorem trim_subset (p : Char → Bool) (l : List Char) (c : Char)
    (h : c ∈ (l.dropWhile p).rdropWhile p) : c ∈ l :=
  (List.dropWhile_suffix p).subset ((List.rdropWhile_prefix p _).subset h)

theorem trim_head_not (p : Char → Bool) (l : List Char) (c : Char)
    (h : ((l.dropWhile p).rdropWhile p).head? = some c) : p c = false := by
  have hpre := List.rdropWhile_prefix p (l.dropWhile p)
  have hne : l.dropWhile p ≠ [] := by
    intro h0
    rw [h0] at h
    simp [List.rdropWhile_nil] at h
  obtain ⟨t, ht⟩ := hpre
  cases hr : (l.dropWhile p).rdropWhile p with
  | nil => rw [hr] at h; cases h
  | cons a rest =>
    rw [hr] at h ht
    simp only [List.head?_cons, Option.some.injEq] at h
    have h1 := List.head_dropWhile_not p l hne
    have h2 : (l.dropWhile p).head hne = a := by
      simp only [← ht, List.cons_append, List.head_cons]
    rw [h2, h] at h1
    exact h1

theorem trim_last_not (p : Char → Bool) (l : List Char) (c : Char)
    (h : ((l.dropWhile p).rdropWhile p).getLast? = some c) : p c = false := by
  have hne : (l.dropWhile p).rdropWhile p ≠ [] := by
    intro h0; rw [h0] at h; cases h
  have h1 := List.rdropWhile_last_not p (l.dropWhile p) hne
  rw [List.getLast?_eq_getLast _ hne, Option.some.injEq] at h
  rw [h] at h1
  simpa using h1

/-- Trimming a trimmed list changes nothing. -/
theorem trim_trim (p : Char → Bool) (l : List Char) :
    (((l.dropWhile p).rdropWhile p).dropWhile p).rdropWhile p =
      (l.dropWhile p).rdropWhile p := by
  have h1 : ((l.dropWhile p).rdropWhile p).dropWhile p =
      (l.dropWhile p).rdropWhile p := by
    cases hr : (l.dropWhile p).rdropWhile p with
    | nil => rfl
    | cons a rest =>
      have ha : p a = false := trim_head_not p l a (by rw [hr]; rfl)
      simp [List.dropWhile_cons, ha]
  rw [h1]
  rw [List.rdropWhile_eq_self_iff]
  intro hl
  exact List.rdropWhile_last_not p _ hl

theorem TrimSpace_eq_empty_iff (v : String) :
    strings.TrimSpace v = "" ↔ ∀ c ∈ v.data, unicode.IsSpace c = true := by
  rw [← trim_eq_nil_iff]
  unfold strings.TrimSpace
  constructor
  · intro h; exact congrArg String.data h
  · intro h; rw [h]

theorem TrimSpace_TrimSpace (v : String) :
    strings.TrimSpace (strings.TrimSpace v) = strings.TrimSpace v := by
  unfold strings.TrimSpace
  simp only [trim_trim]

theorem splitStringList_loop_eq (l : List String) :
    splitStringList.loop l =
      (l.map strings.TrimSpace).filter (fun v => decide (v ≠ "")) := by
  induction l with
  | nil => rfl
  | cons v rest ih =>
    by_cases h : strings.TrimSpace v = ""
    · have hl : ¬ len (strings.TrimSpace v) > 0 := by
        rw [(len_eq_zero_iff _).mpr h]; exact Nat.lt_irrefl 0
      simp only [splitStringList.loop, hl, if_false, ih, List.map_cons]
      rw [List.filter_cons_of_neg (by simp [h])]
    · have hl : len (strings.TrimSpace v) > 0 :=
        Nat.pos_of_ne_zero (fun h0 => h ((len_eq_zero_iff _).mp h0))
      simp [splitStringList.loop, hl, ih, h]

theorem mem_splitStringList_iff (s e : String) :
    e ∈ splitStringList s ↔
      e ≠ "" ∧ ∃ piece ∈ s.data.splitOn ',', e = strings.TrimSpace ⟨piece⟩ := by
  unfold splitStringList
  rw [splitStringList_loop_eq, List.mem_filter, List.mem_map]
  unfold strings.Split
  simp only [List.mem_map, decide_eq_true_eq, ne_eq]
  constructor
  · rintro ⟨⟨v, ⟨piece, hp, rfl⟩, rfl⟩, hne⟩
    exact ⟨hne, piece, hp, rfl⟩
  · rintro ⟨hne, piece, hp, rfl⟩
    exact ⟨⟨_, ⟨piece, hp, rfl⟩, rfl⟩, hne⟩

/-! ## Further facts about the handler -/

theorem scanTerms_eq_matchedTerm (lower : Char → Char) (p : Plugin) (post : Post)
    (channel : Channel) (text : String) (terms : List String) :
    scanTerms lower p post channel (strings.ToLower lower text) terms =
      match matchedTerm lower terms text with
      | none => [Call.LogDebug "No term found"]
      | some t => Call.LogDebug "Term found, reporting" :: report p post channel t := by
  induction terms with
  | nil => rfl
  | cons t rest ih =>
    by_cases ht : (strings.ToLower lower t).data <:+: (strings.ToLower lower text).data
    · have hi : strings.Index (strings.ToLower lower text) (strings.ToLower lower t) ≥ 0 :=
        (Index_nonneg_iff _ _).mpr ht
      simp only [scanTerms, hi, if_true, matchedTerm, List.find?_cons, ht, decide_True]
    · have hi : ¬ strings.Index (strings.ToLower lower text) (strings.ToLower lower t) ≥ 0 := by
        rw [Index_nonneg_iff]; exact ht
      simp only [scanTerms, hi, if_false, matchedTerm, List.find?_cons, ht, decide_False]
      exact ih

theorem report_congr_Id (p : Plugin) (post1 post2 : Post) (channel : Channel)
    (term : String) (hId : post1.Id = post2.Id) :
    report p post1 channel term = report p post2 channel term := by
  unfold report getPermalink
  rw [hId]

/-- The handler panics only after the channel resolved, when the text
extraction panics. -/
theorem panicked_imp (lower : Char → Char) (p : Plugin) (post : Post)
    (h : (MessageHasBeenPosted lower p post).panicked = true) :
    (∃ channel, p.API.GetChannel post.ChannelId = some channel) ∧
      extractTextFromPost post = none := by
  unfold MessageHasBeenPosted at h
  split_ifs at h with h1 h2 h3 h4
  cases hc : p.API.GetChannel post.ChannelId with
  | none => simp [hc] at h
  | some channel =>
    simp only [hc] at h
    split_ifs at h with h5
    cases hx : extractTextFromPost post with
    | none => exact ⟨⟨channel, rfl⟩, rfl⟩
    | some text => simp [hx] at h

/-- Every post the handler submits is submitted by `report` for a configured
term that occurs in the extracted text. -/
theorem MessageHasBeenPosted_posts_text (lower : Char → Char) (p : Plugin)
    (post q : Post)
    (h : q ∈ createdPosts (MessageHasBeenPosted lower p post).calls) :
    ∃ channel text, p.API.GetChannel post.ChannelId = some channel ∧
      extractTextFromPost post = some text ∧
      ∃ term ∈ splitStringList p.configuration.Terms,
        (strings.ToLower lower term).data <:+: (strings.ToLower lower text).data ∧
        q ∈ createdPosts (report p post channel term) := by
  unfold MessageHasBeenPosted at h
  split_ifs at h with h1 h2 h3 h4
  · simp at h
  · simp at h
  · simp at h
  · simp at h
  · cases hc : p.API.GetChannel post.ChannelId with
    | none => simp [hc] at h
    | some channel =>
      simp only [hc] at h
      split_ifs at h with h5
      · simp at h
      · cases hx : extractTextFromPost post with
        | none => simp [hx] at h
        | some text =>
          simp only [hx, createdPosts_cons_GetChannel] at h
          obtain ⟨term, hmem, hocc, hq⟩ := scanTerms_posts _ _ _ _ _ _ _ h
          exact ⟨channel, text, rfl, rfl, term, hmem, hocc, hq⟩

/-- The handler on a post that is no report and whose text is extracted. -/
theorem MessageHasBeenPosted_of_text (lower : Char → Char) (p : Plugin)
    (post : Post) (text : String)
    (hType : post.Type_ ≠ REPORT_POST_TYPE)
    (hText : extractTextFromPost post = some text) :
    MessageHasBeenPosted lower p post =
      if len p.configuration.Terms = 0 then
        ⟨[Call.LogDebug "Not doing anything"], false⟩
      else if len p.configuration.Users = 0 ∧ len p.configuration.Channels = 0 then
        ⟨[Call.LogDebug "Not doing anything"], false⟩
      else if len p.configuration.Teams = 0 then
        ⟨[Call.LogDebug "Not doing anything"], false⟩
      else
        match p.API.GetChannel post.ChannelId with
        | none =>
          ⟨[Call.GetChannel post.ChannelId, Call.LogDebug "Error getting channel"],
            false⟩
        | some channel =>
          if teamFound channel.TeamId (splitStringList p.configuration.Teams) = false then
            ⟨[Call.GetChannel post.ChannelId, Call.LogDebug "Channel not in team"],
              false⟩
          else
            ⟨Call.GetChannel post.ChannelId ::
              (match matchedTerm lower (splitStringList p.configuration.Terms) text with
                | none => [Call.LogDebug "No term found"]
                | some t =>
                  Call.LogDebug "Term found, reporting" :: report p post channel t),
              false⟩ := by
  unfold MessageHasBeenPosted
  simp only [hType, if_false, hText, scanTerms_eq_matchedTerm]

theorem extractTextFromPost_of_absent (post : Post)
    (hfiles : post.fileEntries = [])
    (hatt : post.attachments = none ∨
      post.attachments = some (.slackAttachments [])) :
    extractTextFromPost post = some post.Message := by
  rw [extractTextFromPost_eq, hfiles]
  rcases hatt with h | h <;>
    simp [h, fileNames, Post.attachmentEntries, attachmentStrings, strings.Join]

/-! ## Facts about joining and splitting again -/

theorem Join_data_intercalate (l : List String) (sep : String) :
    (strings.Join l sep).data = sep.data.intercalate (l.map String.data) := by
  induction l with
  | nil => rfl
  | cons s rest ih =>
    cases rest with
    | nil => simp [strings.Join, List.intercalate]
    | cons t rest' =>
      rw [Join_data_cons_cons, ih]
      simp [List.intercalate, List.append_assoc]

/-- Splitting the comma-join of a non-empty list of strings without comma
gives the list back. -/
theorem Split_Join (l : List String) (hne : l ≠ [])
    (hsep : ∀ e ∈ l, ',' ∉ e.data) :
    strings.Split (strings.Join l ",") ',' = l := by
  unfold strings.Split
  rw [Join_data_intercalate]
  have hd : (",".data : List Char) = [','] := rfl
  rw [hd, List.splitOn_intercalate _ ',' ?_ ?_, List.map_map]
  · have : (String.mk ∘ String.data) = id := by
      funext e
      rfl
    rw [this, List.map_id]
  · intro piece hp
    obtain ⟨e, he, rfl⟩ := List.mem_map.mp hp
    exact hsep e he
  · intro h
    exact hne (List.map_eq_nil_iff.mp h)

/-- The loop of `splitStringList` leaves a list of trimmed non-empty strings
as it is. -/
theorem splitStringList_loop_fixed (l : List String)
    (h : ∀ e ∈ l, strings.TrimSpace e = e ∧ e ≠ "") :
    splitStringList.loop l = l := by
  induction l with
  | nil => rfl
  | cons v rest ih =>
    have hv := h v (List.mem_cons_self _ _)
    have hl : len v > 0 :=
      Nat.pos_of_ne_zero (fun h0 => hv.2 ((len_eq_zero_iff _).mp h0))
    have hrest := ih (fun e he => h e (List.mem_cons_of_mem _ he))
    simp only [splitStringList.loop, hv.1, hl, if_true, hrest]

theorem splitStringList_def (s : String) :
    splitStringList s = splitStringList.loop (strings.Split s ',') := rfl

theorem splitStringList_Join (s : String) :
    splitStringList (strings.Join (splitStringList s) ",") = splitStringList s := by
  cases hs : splitStringList s with
  | nil => decide
  | cons a rest =>
    rw [← hs]
    have hprop : ∀ e ∈ splitStringList s,
        ',' ∉ e.data ∧ strings.TrimSpace e = e ∧ e ≠ "" := by
      intro e he
      obtain ⟨hne, piece, hp, rfl⟩ := (mem_splitStringList_iff s e).mp he
      refine ⟨?_, TrimSpace_TrimSpace _, hne⟩
      intro hm
      exact splitOn_no_sep ',' s.data piece hp (trim_subset _ _ _ hm)
    have hne : splitStringList s ≠ [] := by rw [hs]; exact List.cons_ne_nil _ _
    rw [splitStringList_def (strings.Join (splitStringList s) ","),
      Split_Join _ hne (fun e he => (hprop e he).1)]
    exact splitStringList_loop_fixed _ (fun e he => (hprop e he).2)

/-! ## The posts of the handler in terms of the lists of the settings -/

theorem report_posts_nil_of_no_recipient (p : Plugin) (post : Post)
    (channel : Channel) (term : String)
    (hu : splitStringList p.configuration.Users = [])
    (hc : splitStringList p.configuration.Channels = []) :
    createdPosts (report p post channel term) = [] := by
  rw [List.eq_nil_iff_forall_not_mem]
  intro q hq
  obtain ⟨_, _, recipient, _, hrec⟩ := mem_report_posts p post channel term q hq
  rcases hrec with hrec | ⟨u, hmem, _⟩
  · rw [hc] at hrec; cases hrec
  · rw [hu] at hmem; cases hmem

theorem splitStringList_of_len_zero (s : String) (h : len s = 0) :
    splitStringList s = [] := by
  rw [(len_eq_zero_iff s).mp h]
  decide

/-- The posts the handler submits, with the guards on the raw settings
absorbed into the lists of the settings. -/
theorem createdPosts_handler (lower : Char → Char) (p : Plugin) (post : Post) :
    createdPosts (MessageHasBeenPosted lower p post).calls =
      if post.Type_ = REPORT_POST_TYPE then []
      else
        match p.API.GetChannel post.ChannelId with
        | none => []
        | some channel =>
          if channel.TeamId ∈ splitStringList p.configuration.Teams then
            match extractTextFromPost post with
            | none => []
            | some text =>
              match matchedTerm lower (splitStringList p.configuration.Terms) text with
              | none => []
              | some t => createdPosts (report p post channel t)
          else [] := by
  by_cases hType : post.Type_ = REPORT_POST_TYPE
  · simp [MessageHasBeenPosted, hType]
  · rw [if_neg hType]
    cases hc : p.API.GetChannel post.ChannelId with
    | none =>
      rw [List.eq_nil_iff_forall_not_mem]
      intro q hq
      obtain ⟨channel, hc', _⟩ := MessageHasBeenPosted_posts lower p post q hq
      rw [hc] at hc'
      cases hc'
    | some channel =>
      simp only []
      by_cases hteam : channel.TeamId ∈ splitStringList p.configuration.Teams
      · rw [if_pos hteam]
        cases hx : extractTextFromPost post with
        | none =>
          rw [List.eq_nil_iff_forall_not_mem]
          intro q hq
          obtain ⟨_, text, _, hx', _⟩ := MessageHasBeenPosted_posts_text lower p post q hq
          rw [hx] at hx'
          cases hx'
        | some text =>
          simp only []
          have hfound : teamFound channel.TeamId
              (splitStringList p.configuration.Teams) = true :=
            (teamFound_iff _ _).mpr hteam
          rw [MessageHasBeenPosted_of_text lower p post text hType hx]
          by_cases h1 : len p.configuration.Terms = 0
          · rw [if_pos h1, splitStringList_of_len_zero _ h1]
            rfl
          · rw [if_neg h1]
            by_cases h2 : len p.configuration.Users = 0 ∧ len p.configuration.Channels = 0
            · rw [if_pos h2]
              have hnil : ∀ t, createdPosts (report p post channel t) = [] := fun t =>
                report_posts_nil_of_no_recipient p post channel t
                  (splitStringList_of_len_zero _ h2.1)
                  (splitStringList_of_len_zero _ h2.2)
              cases matchedTerm lower (splitStringList p.configuration.Terms) text with
              | none => rfl
              | some t => simp [hnil t]
            · rw [if_neg h2]
              by_cases h3 : len p.configuration.Teams = 0
              · rw [splitStringList_of_len_zero _ h3] at hteam
                cases hteam
              · rw [if_neg h3]
                simp only [hc, hfound, Bool.true_eq_false, if_false,
                  createdPosts_cons_GetChannel]
                cases matchedTerm lower (splitStringList p.configuration.Terms) text with
                | none => rfl
                | some t => rfl
      · rw [if_neg hteam, List.eq_nil_iff_forall_not_mem]
        intro q hq
        obtain ⟨channel', hc', hteam', _⟩ := MessageHasBeenPosted_posts lower p post q hq
        rw [hc] at hc'
        cases hc'
        exact hteam hteam'

theorem report_posts_reencode (p : Plugin) (post : Post) (channel : Channel)
    (term : String) :
    createdPosts (report { p with configuration := p.configuration.reencode } post
        channel term) =
      createdPosts (report p post channel term) := by
  cases ht : p.API.GetTeam channel.TeamId with
  | none =>
    rw [report_posts_of_no_team p post channel term ht,
      report_posts_of_no_team { p with configuration := p.configuration.reencode }
        post channel term ht]
  | some team =>
    rw [report_posts p post channel term team ht,
      report_posts { p with configuration := p.configuration.reencode } post channel
        term team ht]
    simp only [configuration.reencode, splitStringList_Join]
    rfl

/-! ## The claims -/

/-- C1. Term scan, first match in configured order, case-insensitive: for a
post that passes all guards and whose text is extracted, if some configured
term (the Terms setting split and trimmed) occurs in the text after
lower-casing both, then the handler calls `report` once, with the
lowest-indexed such term in its configured spelling, and does nothing else
besides the channel lookup and the log line; if no configured term occurs, it
submits no post. -/
theorem term_scan_first_match (lower : Char → Char) (p : Plugin) (post : Post)
    (channel : Channel) (text : String)
    (hType : post.Type_ ≠ REPORT_POST_TYPE)
    (hTerms : len p.configuration.Terms ≠ 0)
    (hRecipients :
      ¬ (len p.configuration.Users = 0 ∧ len p.configuration.Channels = 0))
    (hTeams : len p.configuration.Teams ≠ 0)
    (hChannel : p.API.GetChannel post.ChannelId = some channel)
    (hTeam : channel.TeamId ∈ splitStringList p.configuration.Teams)
    (hText : extractTextFromPost post = some text) :
    ((∃ t ∈ splitStringList p.configuration.Terms,
        (strings.ToLower lower t).data <:+: (strings.ToLower lower text).data) →
      ∃ i, ∃ hi : i < (splitStringList p.configuration.Terms).length,
        (strings.ToLower lower
            ((splitStringList p.configuration.Terms).get ⟨i, hi⟩)).data <:+:
          (strings.ToLower lower text).data ∧
        (∀ j (hj : j < i),
          ¬ (strings.ToLower lower
              ((splitStringList p.configuration.Terms).get
                ⟨j, lt_trans hj hi⟩)).data <:+:
            (strings.ToLower lower text).data) ∧
        MessageHasBeenPosted lower p post =
          ⟨Call.GetChannel post.ChannelId ::
            Call.LogDebug "Term found, reporting" ::
            report p post channel
              ((splitStringList p.configuration.Terms).get ⟨i, hi⟩), false⟩) ∧
    ((∀ t ∈ splitStringList p.configuration.Terms,
        ¬ (strings.ToLower lower t).data <:+: (strings.ToLower lower text).data) →
      MessageHasBeenPosted lower p post =
        ⟨[Call.GetChannel post.ChannelId, Call.LogDebug "No term found"], false⟩ ∧
      createdPosts (MessageHasBeenPosted lower p post).calls = []) := by
  have hrun := MessageHasBeenPosted_of_guards lower p post channel text hType
    hTerms hRecipients hTeams hChannel hTeam hText
  constructor
  · intro h
    obtain ⟨i, hi, hocc, hmin, heq⟩ :=
      scanTerms_first lower p post channel (strings.ToLower lower text) _ h
    exact ⟨i, hi, hocc, hmin, by rw [hrun, heq]⟩
  · intro h
    have hscan := scanTerms_of_none lower p post channel
      (strings.ToLower lower text) _ h
    rw [hrun, hscan]
    exact ⟨rfl, rfl⟩

/-- C1 at the example: with the terms beta and Alpha configured in that order
and the text "alpha then BETA", the handler reports for "beta". -/
theorem term_scan_first_match_witness :
    MessageHasBeenPosted Char.toLower examplePlugin examplePost =
      ⟨Call.GetChannel "ch1" :: Call.LogDebug "Term found, reporting" ::
        report examplePlugin examplePost exampleChannel "beta", false⟩ := by
  obtain ⟨i, hi, _, hmin, heq⟩ :=
    (term_scan_first_match Char.toLower examplePlugin examplePost exampleChannel
      "alpha then BETA" (by decide) (by decide) (by decide) (by decide)
      (by decide) (by decide) (by decide)).1 ⟨"beta", by decide, by decide⟩
  cases i with
  | zero => exact heq
  | succ k =>
    have h0 : (strings.ToLower Char.toLower "beta").data <:+:
        (strings.ToLower Char.toLower "alpha then BETA").data := by decide
    exact absurd h0 (hmin 0 (Nat.succ_pos k))

/-- C2. Loop prevention: a post of the reserved type `custom_report` makes the
handler return after its log line, whatever the configuration and the
platform: no lookup is made and no post is submitted. -/
theorem loop_prevention (lower : Char → Char) (p : Plugin) (post : Post)
    (hType : post.Type_ = "custom_report") :
    MessageHasBeenPosted lower p post =
        ⟨[Call.LogDebug "Not doing anything"], false⟩ ∧
      (∀ c ∈ (MessageHasBeenPosted lower p post).calls, c.isLookup = false) ∧
      createdPosts (MessageHasBeenPosted lower p post).calls = [] := by
  have h : MessageHasBeenPosted lower p post =
      ⟨[Call.LogDebug "Not doing anything"], false⟩ := by
    unfold MessageHasBeenPosted
    rw [if_pos (by rw [hType]; rfl)]
  rw [h]
  refine ⟨rfl, ?_, rfl⟩
  intro c hc
  rw [List.mem_singleton.mp hc]
  rfl

/-- C2 at the example: the example post retyped as a report is ignored. -/
theorem loop_prevention_witness :
    MessageHasBeenPosted Char.toLower examplePlugin
        { examplePost with Type_ := "custom_report" } =
      ⟨[Call.LogDebug "Not doing anything"], false⟩ :=
  (loop_prevention Char.toLower examplePlugin
    { examplePost with Type_ := "custom_report" } rfl).1


/-- C3. The handler never re-triggers on its own output: every post it submits
carries the reserved type `custom_report`, so handing the submitted post, or
the platform's stored copy of it with the same type, back to the handler
submits no further post, under any configuration and platform. -/
theorem no_retrigger (lower : Char → Char) (p : Plugin) (post q : Post)
    (hq : Call.CreatePost q ∈ (MessageHasBeenPosted lower p post).calls) :
    q.Type_ = "custom_report" ∧
      ∀ (lower' : Char → Char) (p' : Plugin) (q' : Post), q'.Type_ = q.Type_ →
        createdPosts (MessageHasBeenPosted lower' p' q').calls = [] := by
  have hq' := (mem_createdPosts_iff q _).mpr hq
  obtain ⟨channel, _, _, term, _, hrep⟩ := MessageHasBeenPosted_posts lower p post q hq'
  obtain ⟨team, _, recipient, rfl, _⟩ := mem_report_posts p post channel term q hrep
  refine ⟨rfl, ?_⟩
  intro lower' p' q' hty
  unfold MessageHasBeenPosted
  rw [if_pos (by rw [hty])]
  rfl

/-- C3 at the example: the first notification for the example post has the
reserved type and is ignored when it comes back. -/
theorem no_retrigger_witness :
    ({ UserId := "bot", ChannelId := "C1",
       Message := "@all Term `beta` has been used in channel `Town` in team `Eng`. Link: https://chat.example.com/eng/pl/abc123",
       Type_ := "custom_report" } : Post).Type_ = "custom_report" ∧
      createdPosts (MessageHasBeenPosted Char.toLower examplePlugin
        { UserId := "bot", ChannelId := "C1",
          Message := "@all Term `beta` has been used in channel `Town` in team `Eng`. Link: https://chat.example.com/eng/pl/abc123",
          Type_ := "custom_report" }).calls = [] :=
  have h := no_retrigger Char.toLower examplePlugin examplePost
    { UserId := "bot", ChannelId := "C1",
      Message := "@all Term `beta` has been used in channel `Town` in team `Eng`. Link: https://chat.example.com/eng/pl/abc123",
      Type_ := "custom_report" } (by decide)
  ⟨h.1, h.2 Char.toLower examplePlugin _ rfl⟩

/-- C4. Empty lists: if the term list is empty, or the user list and the
channel list are both empty, or the team list is empty, each list being its
setting split at commas and trimmed to the non-empty entries, then the handler
submits no post, whatever the post and the platform. -/
theorem empty_lists_no_post (lower : Char → Char) (p : Plugin) (post : Post)
    (h : splitStringList p.configuration.Terms = [] ∨
      (splitStringList p.configuration.Users = [] ∧
        splitStringList p.configuration.Channels = []) ∨
      splitStringList p.configuration.Teams = []) :
    createdPosts (MessageHasBeenPosted lower p post).calls = [] := by
  rw [List.eq_nil_iff_forall_not_mem]
  intro q hq
  obtain ⟨channel, _, hteam, term, hterm, hrep⟩ :=
    MessageHasBeenPosted_posts lower p post q hq
  obtain ⟨team, _, recipient, _, hrec⟩ := mem_report_posts p post channel term q hrep
  rcases h with h | ⟨hu, hc⟩ | h
  · rw [h] at hterm; cases hterm
  · rcases hrec with hrec | ⟨u, hmem, _⟩
    · rw [hc] at hrec; cases hrec
    · rw [hu] at hmem; cases hmem
  · rw [h] at hteam; cases hteam

/-- C4 at an example: with the Teams setting made of commas and blanks only,
which passes the guard on the length of the setting, the example post yields
no notification. -/
theorem empty_lists_no_post_witness :
    splitStringList " , ," = [] ∧
      createdPosts (MessageHasBeenPosted Char.toLower
        { examplePlugin with
          configuration := { examplePlugin.configuration with Teams := " , ," } }
        examplePost).calls = [] :=
  ⟨by decide,
    empty_lists_no_post Char.toLower
      { examplePlugin with
        configuration := { examplePlugin.configuration with Teams := " , ," } }
      examplePost (Or.inr (Or.inr (by decide)))⟩

/-- C5. Source-team filter: when the channel of the post resolves and its team
ID equals none of the entries of the trimmed team list, exactly and with
case, the handler submits no post, whatever the message contains. -/
theorem source_team_filter (lower : Char → Char) (p : Plugin) (post : Post)
    (channel : Channel)
    (hChannel : p.API.GetChannel post.ChannelId = some channel)
    (hTeam : ∀ t ∈ splitStringList p.configuration.Teams, channel.TeamId ≠ t) :
    createdPosts (MessageHasBeenPosted lower p post).calls = [] := by
  rw [List.eq_nil_iff_forall_not_mem]
  intro q hq
  obtain ⟨channel', hc', hteam, _⟩ := MessageHasBeenPosted_posts lower p post q hq
  rw [hChannel] at hc'
  cases hc'
  exact hTeam _ hteam rfl

/-- C5 at an example: the channel of the example post is in team `t1`; with
only `T1` permitted, in upper case, the post yields no notification. -/
theorem source_team_filter_witness :
    createdPosts (MessageHasBeenPosted Char.toLower
      { examplePlugin with
        configuration := { examplePlugin.configuration with Teams := "T1" } }
      examplePost).calls = [] :=
  source_team_filter Char.toLower
    { examplePlugin with
      configuration := { examplePlugin.configuration with Teams := "T1" } }
    examplePost exampleChannel (by decide) (by decide)


/-- C6. Fan-out: when the team of the origin channel resolves, the posts
`report` submits are addressed, in this order, to every configured recipient
channel and then to the direct channel of every configured user name for
which the user lookup and the direct-channel lookup succeed with a channel;
the other user names get no post. What `CreatePost` answers changes none of
the calls. With channels C1, C2 and an unresolvable user bob, two posts are
sent, to C1 and C2, and there are never more posts than configured channels
plus configured users. -/
theorem fan_out (p : Plugin) (post : Post) (channel : Channel) (term : String)
    (team : Team) (hTeam : p.API.GetTeam channel.TeamId = some team) :
    (createdPosts (report p post channel term)).map (fun q => q.ChannelId) =
        splitStringList p.configuration.Channels ++
          (splitStringList p.configuration.Users).filterMap
            (fun u => (directChannelFor p u).map (fun c => c.Id)) ∧
      (∀ f : Post → Option Post,
        report { p with API := { p.API with CreatePost := f } } post channel term =
          report p post channel term) ∧
      (splitStringList p.configuration.Channels = ["C1", "C2"] →
        splitStringList p.configuration.Users = ["bob"] →
        directChannelFor p "bob" = none →
        (createdPosts (report p post channel term)).map (fun q => q.ChannelId) =
          ["C1", "C2"]) ∧
      (createdPosts (report p post channel term)).length ≤
        (splitStringList p.configuration.Channels).length +
          (splitStringList p.configuration.Users).length := by
  have hposts := report_posts p post channel term team hTeam
  have hmap : (createdPosts (report p post channel term)).map (fun q => q.ChannelId) =
      splitStringList p.configuration.Channels ++
        (splitStringList p.configuration.Users).filterMap
          (fun u => (directChannelFor p u).map (fun c => c.Id)) := by
    rw [hposts, List.map_append, List.map_map, List.map_filterMap]
    congr 1
    · simp [Function.comp_def]
    · congr 1
      funext u
      cases directChannelFor p u <;> rfl
  refine ⟨hmap, ?_, ?_, ?_⟩
  · intro f
    unfold report
    simp only [sendToUsers_CreatePost_irrelevant]
    rfl
  · intro hc hu hbob
    rw [hmap, hc, hu]
    simp [hbob]
  · have hlen := congrArg List.length hmap
    rw [List.length_map, List.length_append] at hlen
    rw [hlen]
    exact Nat.add_le_add_left (List.length_filterMap_le _ _) _

/-- C6 at the example: channels C1, C2 and users bob (unknown) and alice. -/
theorem fan_out_witness :
    (createdPosts (report examplePlugin examplePost exampleChannel "beta")).map
        (fun q => q.ChannelId) = ["C1", "C2", "u1__bot"] ∧
      (createdPosts (report
        { examplePlugin with
          configuration := { examplePlugin.configuration with Users := "bob" } }
        examplePost exampleChannel "beta")).map (fun q => q.ChannelId) =
        ["C1", "C2"] :=
  ⟨(fan_out examplePlugin examplePost exampleChannel "beta" exampleTeam
      (by decide)).1.trans (by decide),
    (fan_out
      { examplePlugin with
        configuration := { examplePlugin.configuration with Users := "bob" } }
      examplePost exampleChannel "beta" exampleTeam (by decide)).2.2.1
      (by decide) (by decide) (by decide)⟩

/-- C7. Content of a notification: every post `report` submits for the term
`term`, the origin channel `channel` and its resolved team `team` is posted as
the bot, has type `custom_report`, is addressed to its own recipient, and
carries the message built from the term as passed, the display names of the
channel and the team and the permalink; all posts of a batch carry the same
message. The handler passes a configured term in its trimmed spelling. -/
theorem notification_content (p : Plugin) (post : Post) (channel : Channel)
    (term : String) (team : Team)
    (hTeam : p.API.GetTeam channel.TeamId = some team) :
    (∀ q ∈ createdPosts (report p post channel term),
        q.UserId = p.BotUserID ∧ q.Type_ = "custom_report" ∧
        q.Message = "@all Term `" ++ term ++ "` has been used in channel `" ++
          channel.DisplayName ++ "` in team `" ++ team.DisplayName ++
          "`. Link: " ++ getPermalink p post team ∧
        (q.ChannelId ∈ splitStringList p.configuration.Channels ∨
          ∃ u ∈ splitStringList p.configuration.Users,
            ∃ c, directChannelFor p u = some c ∧ q.ChannelId = c.Id)) ∧
      (createdPosts (report p post channel term)).map (fun q => q.ChannelId) =
        splitStringList p.configuration.Channels ++
          (splitStringList p.configuration.Users).filterMap
            (fun u => (directChannelFor p u).map (fun c => c.Id)) ∧
      (∀ q ∈ createdPosts (report p post channel term),
        ∀ q' ∈ createdPosts (report p post channel term),
          q.Message = q'.Message) ∧
      (∀ (lower : Char → Char) (post' : Post),
        ∀ q ∈ createdPosts (MessageHasBeenPosted lower p post').calls,
          ∃ t ∈ splitStringList p.configuration.Terms,
            ∃ c tm, p.API.GetChannel post'.ChannelId = some c ∧
              p.API.GetTeam c.TeamId = some tm ∧
              q.Message = "@all Term `" ++ t ++ "` has been used in channel `" ++
                c.DisplayName ++ "` in team `" ++ tm.DisplayName ++
                "`. Link: " ++ getPermalink p post' tm) := by
  have key : ∀ q ∈ createdPosts (report p post channel term),
      ∃ recipient : String,
        q = { UserId := p.BotUserID, ChannelId := recipient,
              Message := reportMessage term channel.DisplayName
                team.DisplayName (getPermalink p post team),
              Type_ := REPORT_POST_TYPE } ∧
        (recipient ∈ splitStringList p.configuration.Channels ∨
          ∃ u ∈ splitStringList p.configuration.Users,
            ∃ c, directChannelFor p u = some c ∧ recipient = c.Id) := by
    intro q hq
    obtain ⟨team', ht', r⟩ := mem_report_posts p post channel term q hq
    rw [hTeam] at ht'
    cases ht'
    exact r
  refine ⟨?_, ?_, ?_, ?_⟩
  · intro q hq
    obtain ⟨recipient, rfl, hrec⟩ := key q hq
    exact ⟨rfl, rfl, rfl, hrec⟩
  · rw [report_posts p post channel term team hTeam, List.map_append, List.map_map,
      List.map_filterMap]
    congr 1
    · simp [Function.comp_def]
    · congr 1
      funext u
      cases directChannelFor p u <;> rfl
  · intro q hq q' hq'
    obtain ⟨_, rfl, _⟩ := key q hq
    obtain ⟨_, rfl, _⟩ := key q' hq'
    rfl
  · intro lower post' q hq
    obtain ⟨c, hc, _, t, ht, hrep⟩ := MessageHasBeenPosted_posts lower p post' q hq
    obtain ⟨tm, htm, _, rfl, _⟩ := mem_report_posts p post' c t q hrep
    exact ⟨t, ht, c, tm, hc, htm, rfl⟩

/-- C7 at the example: the notification sent to channel C1. -/
theorem notification_content_witness :
    (createdPosts (report examplePlugin examplePost exampleChannel "beta")).head? =
      some { UserId := "bot", ChannelId := "C1",
             Message := "@all Term `beta` has been used in channel `Town` in team `Eng`. Link: https://chat.example.com/eng/pl/abc123",
             Type_ := "custom_report" } ∧
      ∀ q ∈ createdPosts (report examplePlugin examplePost exampleChannel "beta"),
        q.UserId = "bot" ∧ q.Type_ = "custom_report" ∧
        q.Message = "@all Term `beta` has been used in channel `Town` in team `Eng`. Link: https://chat.example.com/eng/pl/abc123" :=
  ⟨by decide, fun q hq =>
    have h := (notification_content examplePlugin examplePost exampleChannel
      "beta" exampleTeam (by decide)).1 q hq
    ⟨h.1, h.2.1, h.2.2.1.trans (by decide)⟩⟩

/-- C8. Permalink: with a site URL `s` configured, `getPermalink` is `s`, a
slash, the team name, `/pl/` and the post ID; for `https://chat.example.com`,
team `eng` and post `abc123` it is `https://chat.example.com/eng/pl/abc123`.
Without a site URL it is the empty string, and the notification message is
the template ending in `Link: `. -/
theorem permalink_format (p : Plugin) (post : Post) (team : Team) :
    (∀ s, p.API.SiteURL = some s →
        getPermalink p post team = s ++ "/" ++ team.Name ++ "/pl/" ++ post.Id) ∧
      (p.API.SiteURL = some "https://chat.example.com" → team.Name = "eng" →
        post.Id = "abc123" →
        getPermalink p post team = "https://chat.example.com/eng/pl/abc123") ∧
      (p.API.SiteURL = none →
        getPermalink p post team = "" ∧
        ∀ (channel : Channel) (term : String),
          p.API.GetTeam channel.TeamId = some team →
          ∀ q ∈ createdPosts (report p post channel term),
            q.Message = "@all Term `" ++ term ++ "` has been used in channel `" ++
              channel.DisplayName ++ "` in team `" ++ team.DisplayName ++
              "`. Link: ") := by
  refine ⟨?_, ?_, ?_⟩
  · intro s hs
    simp only [getPermalink, hs]
  · intro hs hn hi
    simp only [getPermalink, hs, hn, hi]
    decide
  · intro hs
    have hp : getPermalink p post team = "" := by simp only [getPermalink, hs]
    refine ⟨hp, ?_⟩
    intro channel term hTeam q hq
    obtain ⟨team', ht', _, rfl, _⟩ := mem_report_posts p post channel term q hq
    rw [hTeam] at ht'
    cases ht'
    simp only [reportMessage, hp, String.append_empty]

/-- C8 at the example, with the site URL of the example platform and without
one. -/
theorem permalink_format_witness :
    getPermalink examplePlugin examplePost exampleTeam =
        "https://chat.example.com/eng/pl/abc123" ∧
      getPermalink
        { examplePlugin with API := { exampleAPI with SiteURL := none } }
        examplePost exampleTeam = "" :=
  ⟨(permalink_format examplePlugin examplePost exampleTeam).2.1 rfl rfl rfl,
    ((permalink_format
      { examplePlugin with API := { exampleAPI with SiteURL := none } }
      examplePost exampleTeam).2.2 rfl).1⟩


/-- The extracted text where the extraction returns: for every post whose file
entries are not nil and whose `attachments` property is absent or holds a
list of attachment blocks, `extractTextFromPost` returns the newline-join of
the sequence the specification lists (body, file names, and per attachment
block its six texts, its fields' titles and rendered values, its actions'
names and default options with their options' texts and values); so each
string of the sequence is a substring of the text, and a post with empty body
and one attachment with title T and one field of value 42 yields a text
containing T and 42. -/
theorem extract_text_sequence (post : Post)
    (hFiles : none ∉ post.fileEntries)
    (hProp : ∀ goType, post.attachments ≠ some (.other goType)) :
    extractTextFromPost post =
        some (strings.Join (specTextSequence post) "\n") ∧
      (∀ s ∈ specTextSequence post,
        ∃ text, extractTextFromPost post = some text ∧ s.data <:+: text.data) ∧
      (∀ (a : SlackAttachment) (f : SlackAttachmentField),
        post.Message = "" →
        post.attachments = some (.slackAttachments [some a]) →
        a.Title = "T" → a.Fields = [some f] → f.Value = some (.int 42) →
        ∃ text, extractTextFromPost post = some text ∧
          "T".data <:+: text.data ∧ "42".data <:+: text.data) := by
  have hmain : extractTextFromPost post =
      some (strings.Join (specTextSequence post) "\n") := by
    rw [extractTextFromPost_eq, fileNames_of_no_nil _ hFiles]
    unfold specTextSequence
    rw [← attachmentStrings_eq]
    cases hatt : post.attachments with
    | none => rfl
    | some v =>
      cases v with
      | slackAttachments l => rfl
      | other g => exact absurd hatt (hProp g)
  refine ⟨hmain, ?_, ?_⟩
  · intro s hs
    exact ⟨_, hmain, mem_infix_Join _ _ _ hs⟩
  · intro a f _ hatt hT hF hV
    refine ⟨_, hmain, mem_infix_Join _ _ _ ?_, mem_infix_Join _ _ _ ?_⟩
    · simp [specTextSequence, Post.attachmentEntries, hatt,
        List.reduceOption_cons_of_some, hT]
    · have h42 : fmtV (some (.int 42)) = "42" := by decide
      simp [specTextSequence, Post.attachmentEntries, hatt,
        List.reduceOption_cons_of_some, hF, hV, h42]

/-- The extracted text of the example post: body empty, one block with title
T and a field of value 42, the nil entries skipped. -/
theorem extract_text_sequence_witness :
    extractTextFromPost exampleAttachmentPost =
        some (strings.Join ["", "", "", "", "T", "", "", "n", "42", "go", ""] "\n") ∧
      ∃ text, extractTextFromPost exampleAttachmentPost = some text ∧
        "42".data <:+: text.data :=
  have h := extract_text_sequence exampleAttachmentPost (by decide)
    (fun g hg => by cases hg)
  ⟨h.1.trans (by decide), h.2.1 "42" (by decide)⟩

/-- C9 on the code: the extraction does not return the join of the sequence
for every post. A post with an empty body whose attachment (title T, a field
of value 42) has the shape of decoded JSON makes the type assertion panic, and
a post with a nil file entry makes the file loop panic on `file.Name`; for
both the specification's sequence is defined (the body alone) and its join is
not what the function gives. -/
theorem extract_text_panics :
    extractTextFromPost exampleJSONAttachmentPost = none ∧
      specTextSequence exampleJSONAttachmentPost = [""] ∧
      extractTextFromPost exampleJSONAttachmentPost ≠
        some (strings.Join (specTextSequence exampleJSONAttachmentPost) "\n") ∧
      extractTextFromPost exampleNilFilePost = none ∧
      specTextSequence exampleNilFilePost = ["hello"] ∧
      extractTextFromPost exampleNilFilePost ≠
        some (strings.Join (specTextSequence exampleNilFilePost) "\n") := by
  decide

/-- C10. Absent structures add nothing: a post with no files (nil metadata,
nil or empty file list) and no attachments (property absent or an empty list)
extracts to exactly its message body; and for every post, removing the nil
attachment, field, action and option entries leaves the result of
`extractTextFromPost` unchanged. -/
theorem absent_structures (post : Post) :
    ((post.Metadata = none ∨
        ∃ m, post.Metadata = some m ∧ (m.Files = none ∨ m.Files = some [])) →
      (post.attachments = none ∨
        post.attachments = some (.slackAttachments [])) →
      extractTextFromPost post = some post.Message) ∧
    extractTextFromPost post.withoutNilEntries = extractTextFromPost post := by
  constructor
  · intro hfiles hatt
    have hf : post.fileEntries = [] := by
      rcases hfiles with h | ⟨m, h, h' | h'⟩
      · simp [Post.fileEntries, h]
      · simp [Post.fileEntries, h, h']
      · simp [Post.fileEntries, h, h']
    rw [extractTextFromPost_eq, hf]
    rcases hatt with h | h <;>
      simp [h, fileNames, Post.attachmentEntries, attachmentStrings, strings.Join]
  · rw [extractTextFromPost_eq, extractTextFromPost_eq]
    obtain ⟨id, uid, cid, msg, ty, md, att⟩ := post
    cases att with
    | none => rfl
    | some v =>
      cases v with
      | other g => rfl
      | slackAttachments l =>
        simp only [Post.withoutNilEntries, Post.fileEntries, Post.attachmentEntries,
          attachmentStrings_withoutNil]
        generalize fileNames _ = fn
        cases fn <;> rfl

/-- C10 at examples: a post with an empty file list and an empty attachment
list extracts to its body, and the example post without its nil entries
extracts as it does with them. -/
theorem absent_structures_witness :
    extractTextFromPost
        { Message := "hello", Metadata := some { Files := some [] },
          attachments := some (.slackAttachments []) } = some "hello" ∧
      extractTextFromPost exampleAttachmentPost.withoutNilEntries =
        extractTextFromPost exampleAttachmentPost :=
  ⟨(absent_structures
      { Message := "hello", Metadata := some { Files := some [] },
        attachments := some (.slackAttachments []) }).1
      (Or.inr ⟨{ Files := some [] }, rfl, Or.inr rfl⟩) (Or.inr rfl),
    (absent_structures exampleAttachmentPost).2⟩

/-- C11. The list of a setting: for every string `s`, `splitStringList s` is
the list, in order, of the trimmed comma-separated pieces of `s` that are not
empty after trimming; so every entry is non-empty, contains no comma and
neither starts nor ends with white space, and the list is empty exactly when
every rune of `s` is a comma or white space. -/
theorem splitStringList_spec (s : String) :
    splitStringList s =
        ((strings.Split s ',').map strings.TrimSpace).filter
          (fun v => decide (v ≠ "")) ∧
      (∀ e ∈ splitStringList s,
        e ≠ "" ∧ ',' ∉ e.data ∧
        (∀ c, e.data.head? = some c → unicode.IsSpace c = false) ∧
        (∀ c, e.data.getLast? = some c → unicode.IsSpace c = false)) ∧
      (splitStringList s = [] ↔
        ∀ c ∈ s.data, c = ',' ∨ unicode.IsSpace c = true) ∧
      splitStringList " a , b,, c d ," = ["a", "b", "c d"] := by
  refine ⟨?_, ?_, ?_, by decide⟩
  · unfold splitStringList
    exact splitStringList_loop_eq _
  · intro e he
    obtain ⟨hne, piece, hp, rfl⟩ := (mem_splitStringList_iff s e).mp he
    refine ⟨hne, ?_, ?_, ?_⟩
    · intro hm
      exact splitOn_no_sep ',' s.data piece hp (trim_subset _ _ _ hm)
    · intro c hc
      exact trim_head_not _ _ c hc
    · intro c hc
      exact trim_last_not _ _ c hc
  · rw [← splitOn_forall_iff ',' (fun c => unicode.IsSpace c = true) s.data,
      List.eq_nil_iff_forall_not_mem]
    constructor
    · intro h piece hp
      have hempty : strings.TrimSpace ⟨piece⟩ = "" := by
        by_contra hne
        exact h _ ((mem_splitStringList_iff s _).mpr ⟨hne, piece, hp, rfl⟩)
      exact (TrimSpace_eq_empty_iff _).mp hempty
    · intro h e he
      obtain ⟨hne, piece, hp, rfl⟩ := (mem_splitStringList_iff s e).mp he
      exact hne ((TrimSpace_eq_empty_iff _).mpr (h piece hp))

/-- C12. Lookup failures tied to the triggering post: if the origin channel
does not resolve, the handler submits no post and returns; if the channel
resolves but its team does not, `report` stops after the team lookup, so the
handler submits no post, not even to the configured channels, and it returns
whenever the text extraction did. -/
theorem lookup_failure_aborts (lower : Char → Char) (p : Plugin) (post : Post) :
    (p.API.GetChannel post.ChannelId = none →
        createdPosts (MessageHasBeenPosted lower p post).calls = [] ∧
        (MessageHasBeenPosted lower p post).panicked = false) ∧
      (∀ channel, p.API.GetChannel post.ChannelId = some channel →
        p.API.GetTeam channel.TeamId = none →
        (∀ term, report p post channel term = [Call.GetTeam channel.TeamId]) ∧
        createdPosts (MessageHasBeenPosted lower p post).calls = [] ∧
        ((∃ text, extractTextFromPost post = some text) →
          (MessageHasBeenPosted lower p post).panicked = false)) := by
  have hpan : (∃ text, extractTextFromPost post = some text) →
      (MessageHasBeenPosted lower p post).panicked = false := by
    rintro ⟨text, ht⟩
    cases hb : (MessageHasBeenPosted lower p post).panicked with
    | false => rfl
    | true =>
      have := (panicked_imp lower p post hb).2
      rw [ht] at this
      cases this
  constructor
  · intro hc
    constructor
    · rw [List.eq_nil_iff_forall_not_mem]
      intro q hq
      obtain ⟨channel, hc', _⟩ := MessageHasBeenPosted_posts lower p post q hq
      rw [hc] at hc'
      cases hc'
    · cases hb : (MessageHasBeenPosted lower p post).panicked with
      | false => rfl
      | true =>
        obtain ⟨⟨channel, hc'⟩, _⟩ := panicked_imp lower p post hb
        rw [hc] at hc'
        cases hc'
  · intro channel hc ht
    refine ⟨fun term => report_posts_of_no_team p post channel term ht, ?_, hpan⟩
    rw [List.eq_nil_iff_forall_not_mem]
    intro q hq
    obtain ⟨channel', hc', _, term, _, hrep⟩ :=
      MessageHasBeenPosted_posts lower p post q hq
    rw [hc] at hc'
    cases hc'
    rw [report_posts_of_no_team p post channel term ht] at hrep
    simp at hrep

/-- C12 at examples: the example post in an unknown channel, and the example
post on a platform whose team lookup fails. -/
theorem lookup_failure_aborts_witness :
    MessageHasBeenPosted Char.toLower examplePlugin
        { examplePost with ChannelId := "gone" } =
        ⟨[Call.GetChannel "gone", Call.LogDebug "Error getting channel"], false⟩ ∧
      createdPosts (MessageHasBeenPosted Char.toLower
        { examplePlugin with API := { exampleAPI with GetTeam := fun _ => none } }
        examplePost).calls = [] ∧
      MessageHasBeenPosted Char.toLower
        { examplePlugin with API := { exampleAPI with GetTeam := fun _ => none } }
        examplePost =
        ⟨[Call.GetChannel "ch1", Call.LogDebug "Term found, reporting",
          Call.GetTeam "t1"], false⟩ :=
  ⟨by decide,
    ((lookup_failure_aborts Char.toLower
      { examplePlugin with API := { exampleAPI with GetTeam := fun _ => none } }
      examplePost).2 exampleChannel (by decide) (by decide)).2.1,
    by decide⟩

/-- C13, as the claim states it, fails: with settings that are not empty but
hold only commas and blanks, so that their lists are empty, the handler
passes guards 2 to 4 and resolves the origin channel. -/
theorem guards_on_split_lists_counterexample :
    splitStringList "," = [] ∧ splitStringList " " = [] ∧
      MessageHasBeenPosted Char.toLower
        { examplePlugin with
          configuration := { examplePlugin.configuration with Terms := "," } }
        examplePost =
        ⟨[Call.GetChannel "ch1", Call.LogDebug "No term found"], false⟩ ∧
      MessageHasBeenPosted Char.toLower
        { examplePlugin with
          configuration :=
            { examplePlugin.configuration with Users := ",", Channels := " " } }
        examplePost =
        ⟨[Call.GetChannel "ch1", Call.LogDebug "Term found, reporting",
          Call.GetTeam "t1", Call.GetConfig], false⟩ ∧
      MessageHasBeenPosted Char.toLower
        { examplePlugin with
          configuration := { examplePlugin.configuration with Teams := "," } }
        examplePost =
        ⟨[Call.GetChannel "ch1", Call.LogDebug "Channel not in team"], false⟩ := by
  decide

/-- C13, amended. The guards test the settings themselves: when the Terms
setting is the empty string, or the Users and Channels settings are both the
empty string, or the Teams setting is the empty string, the handler returns
after its log line and makes no platform lookup. When none of these holds and
the post is no report, the handler looks up the origin channel, whatever the
lists of the settings are. -/
theorem guards_short_circuit (lower : Char → Char) (p : Plugin) (post : Post) :
    ((p.configuration.Terms = "" ∨
        (p.configuration.Users = "" ∧ p.configuration.Channels = "") ∨
        p.configuration.Teams = "") →
      MessageHasBeenPosted lower p post =
          ⟨[Call.LogDebug "Not doing anything"], false⟩ ∧
        ∀ c ∈ (MessageHasBeenPosted lower p post).calls, c.isLookup = false) ∧
    (post.Type_ ≠ "custom_report" → p.configuration.Terms ≠ "" →
      ¬ (p.configuration.Users = "" ∧ p.configuration.Channels = "") →
      p.configuration.Teams ≠ "" →
      (MessageHasBeenPosted lower p post).calls.head? =
        some (Call.GetChannel post.ChannelId)) := by
  constructor
  · intro h
    have hrun : MessageHasBeenPosted lower p post =
        ⟨[Call.LogDebug "Not doing anything"], false⟩ := by
      unfold MessageHasBeenPosted
      rcases h with h | ⟨hu, hc⟩ | h
      · have h0 := (len_eq_zero_iff _).mpr h
        split_ifs <;> rfl
      · have h1 := (len_eq_zero_iff _).mpr hu
        have h2 := (len_eq_zero_iff _).mpr hc
        have h3 : len p.configuration.Users = 0 ∧ len p.configuration.Channels = 0 :=
          ⟨h1, h2⟩
        split_ifs <;> rfl
      · have h0 := (len_eq_zero_iff _).mpr h
        split_ifs <;> rfl
    rw [hrun]
    refine ⟨rfl, ?_⟩
    intro c hc
    rw [List.mem_singleton.mp hc]
    rfl
  · intro hType hTerms hRec hTeams
    have h1 : ¬ post.Type_ = REPORT_POST_TYPE := hType
    have h2 : ¬ len p.configuration.Terms = 0 :=
      fun h => hTerms ((len_eq_zero_iff _).mp h)
    have h3 : ¬ (len p.configuration.Users = 0 ∧ len p.configuration.Channels = 0) :=
      fun h => hRec ⟨(len_eq_zero_iff _).mp h.1, (len_eq_zero_iff _).mp h.2⟩
    have h4 : ¬ len p.configuration.Teams = 0 :=
      fun h => hTeams ((len_eq_zero_iff _).mp h)
    unfold MessageHasBeenPosted
    simp only [h1, h2, h3, h4, if_false]
    cases p.API.GetChannel post.ChannelId with
    | none => rfl
    | some channel =>
      simp only []
      split_ifs
      · rfl
      · cases extractTextFromPost post <;> rfl

/-- C13 amended, at examples: the example post with the Teams setting empty,
and with the Teams setting a comma. -/
theorem guards_short_circuit_witness :
    MessageHasBeenPosted Char.toLower
        { examplePlugin with
          configuration := { examplePlugin.configuration with Teams := "" } }
        examplePost = ⟨[Call.LogDebug "Not doing anything"], false⟩ ∧
      (MessageHasBeenPosted Char.toLower
        { examplePlugin with
          configuration := { examplePlugin.configuration with Teams := "," } }
        examplePost).calls.head? = some (Call.GetChannel "ch1") :=
  ⟨((guards_short_circuit Char.toLower
      { examplePlugin with
        configuration := { examplePlugin.configuration with Teams := "" } }
      examplePost).1 (Or.inr (Or.inr rfl))).1,
    (guards_short_circuit Char.toLower
      { examplePlugin with
        configuration := { examplePlugin.configuration with Teams := "," } }
      examplePost).2 (by decide) (by decide) (by decide) (by decide)⟩

/-- C14 on the code: a post whose `attachments` property has the shape of
decoded JSON makes the type assertion of `extractTextFromPost` panic; the
handler, past its guards, ends in that panic after the channel lookup. -/
theorem type_assertion_panics :
    exampleJSONPost.attachments = some (.other "[]interface \x7b\x7d") ∧
      extractTextFromPost exampleJSONPost = none ∧
      MessageHasBeenPosted Char.toLower examplePlugin exampleJSONPost =
        ⟨[Call.GetChannel "ch1"], true⟩ := by
  decide

/-- C15. A notification has a real trigger: every post the handler submits is
the notification for a configured term that is not the empty string and that
occurs, lower-cased, in the lower-cased extracted text; empty entries of the
Terms setting are no terms. So a post whose extracted text is empty, as for
an empty body with no files and no attachments, yields no notification under
any configuration. -/
theorem real_trigger (lower : Char → Char) (p : Plugin) (post : Post) :
    (∀ q ∈ createdPosts (MessageHasBeenPosted lower p post).calls,
        ∃ t ∈ splitStringList p.configuration.Terms, t ≠ "" ∧
          (∃ text, extractTextFromPost post = some text ∧
            (strings.ToLower lower t).data <:+: (strings.ToLower lower text).data) ∧
          ∃ c tm, p.API.GetChannel post.ChannelId = some c ∧
            p.API.GetTeam c.TeamId = some tm ∧
            q.Message = "@all Term `" ++ t ++ "` has been used in channel `" ++
              c.DisplayName ++ "` in team `" ++ tm.DisplayName ++
              "`. Link: " ++ getPermalink p post tm) ∧
      splitStringList "a,,b" = ["a", "b"] ∧ splitStringList "a,b," = ["a", "b"] ∧
      (extractTextFromPost post = some "" →
        createdPosts (MessageHasBeenPosted lower p post).calls = []) ∧
      (post.Message = "" → post.fileEntries = [] →
        (post.attachments = none ∨
          post.attachments = some (.slackAttachments [])) →
        createdPosts (MessageHasBeenPosted lower p post).calls = []) := by
  have hmain : ∀ q ∈ createdPosts (MessageHasBeenPosted lower p post).calls,
      ∃ t ∈ splitStringList p.configuration.Terms, t ≠ "" ∧
        (∃ text, extractTextFromPost post = some text ∧
          (strings.ToLower lower t).data <:+: (strings.ToLower lower text).data) ∧
        ∃ c tm, p.API.GetChannel post.ChannelId = some c ∧
          p.API.GetTeam c.TeamId = some tm ∧
          q.Message = "@all Term `" ++ t ++ "` has been used in channel `" ++
            c.DisplayName ++ "` in team `" ++ tm.DisplayName ++
            "`. Link: " ++ getPermalink p post tm := by
    intro q hq
    obtain ⟨c, text, hc, htext, t, ht, hocc, hrep⟩ :=
      MessageHasBeenPosted_posts_text lower p post q hq
    obtain ⟨tm, htm, _, rfl, _⟩ := mem_report_posts p post c t q hrep
    exact ⟨t, ht, ((mem_splitStringList_iff _ _).mp ht).1, ⟨text, htext, hocc⟩,
      c, tm, hc, htm, rfl⟩
  have hempty : extractTextFromPost post = some "" →
      createdPosts (MessageHasBeenPosted lower p post).calls = [] := by
    intro hx
    rw [List.eq_nil_iff_forall_not_mem]
    intro q hq
    obtain ⟨t, _, hne, ⟨text, htext, hocc⟩, _⟩ := hmain q hq
    rw [hx] at htext
    cases htext
    have h1 : (strings.ToLower lower t).data = [] := by
      have : (strings.ToLower lower "").data = [] := rfl
      rw [this] at hocc
      exact List.eq_nil_of_infix_nil hocc
    have h2 : t.data = [] := by
      simpa [strings.ToLower] using h1
    apply hne
    obtain ⟨d⟩ := t
    simp only at h2
    rw [h2]
  refine ⟨hmain, by decide, by decide, hempty, ?_⟩
  intro hmsg hfiles hatt
  apply hempty
  rw [extractTextFromPost_of_absent post hfiles hatt, hmsg]

/-- C15 at examples: the notification for the example post is for the term
beta, and the example post with an empty body yields none. -/
theorem real_trigger_witness :
    createdPosts (MessageHasBeenPosted Char.toLower examplePlugin
        { examplePost with Message := "" }).calls = [] ∧
      ∃ t ∈ splitStringList "beta, Alpha", t ≠ "" ∧
        (strings.ToLower Char.toLower t).data <:+:
          (strings.ToLower Char.toLower "alpha then BETA").data :=
  ⟨(real_trigger Char.toLower examplePlugin
      { examplePost with Message := "" }).2.2.2.2 rfl rfl (Or.inl rfl),
    have h := (real_trigger Char.toLower examplePlugin examplePost).1
      { UserId := "bot", ChannelId := "C1",
        Message := "@all Term `beta` has been used in channel `Town` in team `Eng`. Link: https://chat.example.com/eng/pl/abc123",
        Type_ := "custom_report" } (by decide)
    match h with
    | ⟨t, ht, hne, ⟨text, htext, hocc⟩, _⟩ =>
      ⟨t, ht, hne, by
        have : text = "alpha then BETA" := by
          have h2 : extractTextFromPost examplePost = some "alpha then BETA" := by
            decide
          rw [h2] at htext
          exact (Option.some.inj htext).symm
        rw [this] at hocc
        exact hocc⟩⟩

/-- C16. Stable under re-encoding: for every string `s`, splitting the
comma-join of `splitStringList s` gives `splitStringList s` again; so a
configuration saved back in normal form has the same lists of terms, users,
channels and teams, and the handler submits the same posts under it. -/
theorem splitStringList_reencode_stable (s : String) :
    splitStringList (strings.Join (splitStringList s) ",") = splitStringList s ∧
      (∀ c : configuration,
        splitStringList c.reencode.Terms = splitStringList c.Terms ∧
        splitStringList c.reencode.Users = splitStringList c.Users ∧
        splitStringList c.reencode.Channels = splitStringList c.Channels ∧
        splitStringList c.reencode.Teams = splitStringList c.Teams) ∧
      (∀ (lower : Char → Char) (p : Plugin) (post : Post),
        createdPosts (MessageHasBeenPosted lower
          { p with configuration := p.configuration.reencode } post).calls =
          createdPosts (MessageHasBeenPosted lower p post).calls) := by
  refine ⟨splitStringList_Join s, ?_, ?_⟩
  · intro c
    exact ⟨splitStringList_Join _, splitStringList_Join _, splitStringList_Join _,
      splitStringList_Join _⟩
  · intro lower p post
    rw [createdPosts_handler, createdPosts_handler]
    simp only [report_posts_reencode]
    simp only [configuration.reencode, splitStringList_Join]

/-- C17. No disclosure of the content: two posts with the same ID and origin
channel, neither a report, whose texts are extracted and trigger on the same
term, make the handler do the same calls, so the posts submitted are the
same; the sequence of posts depends on body, file names and attachments only
through the term matched. -/
theorem non_disclosure (lower : Char → Char) (p : Plugin) (post1 post2 : Post)
    (text1 text2 t : String)
    (hId : post1.Id = post2.Id) (hCh : post1.ChannelId = post2.ChannelId)
    (hType1 : post1.Type_ ≠ REPORT_POST_TYPE)
    (hType2 : post2.Type_ ≠ REPORT_POST_TYPE)
    (hText1 : extractTextFromPost post1 = some text1)
    (hText2 : extractTextFromPost post2 = some text2)
    (hTerm1 : matchedTerm lower (splitStringList p.configuration.Terms) text1 = some t)
    (hTerm2 : matchedTerm lower (splitStringList p.configuration.Terms) text2 = some t) :
    MessageHasBeenPosted lower p post1 = MessageHasBeenPosted lower p post2 ∧
      createdPosts (MessageHasBeenPosted lower p post1).calls =
        createdPosts (MessageHasBeenPosted lower p post2).calls := by
  have h : MessageHasBeenPosted lower p post1 = MessageHasBeenPosted lower p post2 := by
    rw [MessageHasBeenPosted_of_text lower p post1 text1 hType1 hText1,
      MessageHasBeenPosted_of_text lower p post2 text2 hType2 hText2,
      hTerm1, hTerm2, hCh]
    simp only [report_congr_Id p post1 post2 _ t hId]
  exact ⟨h, by rw [h]⟩

/-- C17 at the example: two posts with the same ID and channel and different
contents, both triggering on beta, lead to the same calls. -/
theorem non_disclosure_witness :
    examplePost.Message ≠ examplePost2.Message ∧
      MessageHasBeenPosted Char.toLower examplePlugin examplePost =
        MessageHasBeenPosted Char.toLower examplePlugin examplePost2 :=
  ⟨by decide,
    (non_disclosure Char.toLower examplePlugin examplePost examplePost2
      "alpha then BETA" "secret Beta plan\nbudget.xls" "beta" rfl rfl
      (by decide) (by decide) (by decide) (by decide) (by decide) (by decide)).1⟩

end Report
